import Mathlib

/-!
Verification of the dag-jose codec (`src/lib.rs`, `src/codec.rs`, `src/bytes.rs`,
`src/error.rs`): a shallow embedding of the domain model (`Jose`,
`JsonWebSignature`, `JsonWebEncryption`), the wire model (`Encoded`, `Decoded`)
and the conversion layer, together with an executable model of the external
collaborators the spec pins down as contracts (the canonical DAG-CBOR
serializer, the content-identifier parser, the base64url codec and the DAG-JSON
text codec).

Conventions of the embedding:
* Rust `String` values are modelled as their UTF-8 byte lists (`Str`), and
  `Vec<u8>`/`Bytes` as `List Nat`; byte values are kept as unbounded `Nat`
  (the code never relies on wrap-around).
* `BTreeMap<String, Ipld>` is modelled as a key-sorted association list; the
  sortedness is an invariant of the builder `btreeOfList`, not of the type.
* Rust panics (the `expect("TODO")` in `From<Encoded> for Decoded`) are
  modelled as `Option.none` / `Outcome.panic`, never as a typed error.
* The IPLD `Float` kind is outside the modelled fragment (no claim touches it).
-/

/-- UTF-8 byte list of an ASCII Lean string, used to spell the wire keys. -/
def strBytes (s : String) : List Nat := s.data.map Char.toNat

/-- Rust `String` values, modelled as their UTF-8 bytes. -/
abbrev Str := List Nat

/-- Unsigned LEB128 (multiformats varint) encoding, as used inside binary CIDs. -/
def varintEncode (n : Nat) : List Nat :=
  if h : n < 128 then [n] else (n % 128 + 128) :: varintEncode (n / 128)
termination_by n
decreasing_by exact Nat.div_lt_self (by omega) (by omega)

/-- Unsigned LEB128 decoding; returns the value and the unread remainder. -/
def varintDecode : List Nat → Option (Nat × List Nat)
  | [] => none
  | b :: t =>
    if b < 128 then some (b, t)
    else
      match varintDecode t with
      | some (n, r) => some (b % 128 + 128 * n, r)
      | none => none

theorem varintDecode_encode (n : Nat) : ∀ r : List Nat,
    varintDecode (varintEncode n ++ r) = some (n, r) := by
  induction n using Nat.strong_induction_on with
  | _ n ih =>
    intro r
    unfold varintEncode
    split
    · simp [varintDecode, *]
    · rename_i h
      rw [List.cons_append]
      simp only [varintDecode]
      rw [if_neg (by omega)]
      rw [ih (n / 128) (Nat.div_lt_self (by omega) (by omega)) r]
      show some ((n % 128 + 128) % 128 + 128 * (n / 128), r) = some (n, r)
      simp only [Option.some.injEq, Prod.mk.injEq]
      refine ⟨by omega, trivial⟩

/-- Content identifier, modelled from the spec: "A content-identifier type:
parseable from raw bytes, producing a stable identifier; failure is a typed
error" (the `cid` crate is an external collaborator, not part of `src/`). -/
structure Cid where
  version : Nat
  codec : Nat
  hashCode : Nat
  hashSize : Nat
  digest : List Nat
deriving DecidableEq

/-- Modelled from the spec: binary CID parsing (`Cid::try_from(&[u8])` of the
external `cid` crate).  Accepts the CIDv0 form `0x12 0x20 ++ 32 digest bytes`
and the CIDv1 form `varint 1 ++ varint codec ++ multihash`, requiring the
whole input to be consumed. -/
def cidFromBytes (bs : List Nat) : Option Cid :=
  match varintDecode bs with
  | none => none
  | some (v, r1) =>
    if v = 18 then
      match r1 with
      | b :: d => if b = 32 ∧ d.length = 32 then some ⟨0, 112, 18, 32, d⟩ else none
      | [] => none
    else if v = 1 then
      match varintDecode r1 with
      | none => none
      | some (c, r2) =>
        match varintDecode r2 with
        | none => none
        | some (hc, r3) =>
          match varintDecode r3 with
          | none => none
          | some (s, r4) => if r4.length = s then some ⟨1, c, hc, s, r4⟩ else none
    else none

/-- Modelled from the spec: binary CID serialization (inverse direction of the
external content-identifier contract), needed to embed links in DAG-CBOR. -/
def cidToBytes (c : Cid) : List Nat :=
  if c.version = 0 then 18 :: 32 :: c.digest
  else varintEncode c.version ++ varintEncode c.codec ++
    varintEncode c.hashCode ++ varintEncode c.hashSize ++ c.digest

/-- The identifiers representable in the binary CID format modelled here. -/
def Cid.wfB (c : Cid) : Bool :=
  (c.version == 0 && c.codec == 112 && c.hashCode == 18 && c.hashSize == 32 &&
    c.digest.length == 32) ||
  (c.version == 1 && c.digest.length == c.hashSize)

theorem cidFromBytes_toBytes (c : Cid) (h : c.wfB = true) :
    cidFromBytes (cidToBytes c) = some c := by
  rcases c with ⟨v, co, hc, hs, d⟩
  simp only [Cid.wfB, Bool.or_eq_true, Bool.and_eq_true, beq_iff_eq] at h
  rcases h with ⟨⟨⟨⟨h0, h1⟩, h2⟩, h3⟩, h4⟩ | ⟨h0, h1⟩
  · subst h0 h1 h2 h3
    have hb : cidToBytes ⟨0, 112, 18, 32, d⟩ = 18 :: 32 :: d := by simp [cidToBytes]
    rw [hb]
    simp [cidFromBytes, varintDecode, h4]
  · subst h0
    have hb : cidToBytes ⟨1, co, hc, hs, d⟩ =
        varintEncode 1 ++ (varintEncode co ++ (varintEncode hc ++ (varintEncode hs ++ d))) := by
      simp [cidToBytes, List.append_assoc]
    rw [hb]
    simp [cidFromBytes, varintDecode_encode, h1]

/-- Canonical CBOR head (major type and argument, minimal-length encoding). -/
def cborHead (maj arg : Nat) : List Nat :=
  if arg < 24 then [32 * maj + arg]
  else if arg < 2 ^ 8 then [32 * maj + 24, arg]
  else if arg < 2 ^ 16 then [32 * maj + 25, arg / 2 ^ 8, arg % 2 ^ 8]
  else if arg < 2 ^ 32 then
    [32 * maj + 26, arg / 2 ^ 24 % 256, arg / 2 ^ 16 % 256, arg / 2 ^ 8 % 256, arg % 256]
  else
    [32 * maj + 27, arg / 2 ^ 56 % 256, arg / 2 ^ 48 % 256, arg / 2 ^ 40 % 256,
      arg / 2 ^ 32 % 256, arg / 2 ^ 24 % 256, arg / 2 ^ 16 % 256, arg / 2 ^ 8 % 256, arg % 256]

/-- Read one CBOR head; returns major type, argument and the unread remainder. -/
def readHead : List Nat → Option (Nat × Nat × List Nat)
  | [] => none
  | b :: t =>
    let maj := b / 32
    let info := b % 32
    if info < 24 then some (maj, info, t)
    else if info = 24 then
      match t with
      | a0 :: r => some (maj, a0, r)
      | _ => none
    else if info = 25 then
      match t with
      | a0 :: a1 :: r => some (maj, a0 * 2 ^ 8 + a1, r)
      | _ => none
    else if info = 26 then
      match t with
      | a0 :: a1 :: a2 :: a3 :: r =>
        some (maj, a0 * 2 ^ 24 + a1 * 2 ^ 16 + a2 * 2 ^ 8 + a3, r)
      | _ => none
    else if info = 27 then
      match t with
      | a0 :: a1 :: a2 :: a3 :: a4 :: a5 :: a6 :: a7 :: r =>
        some (maj, a0 * 2 ^ 56 + a1 * 2 ^ 48 + a2 * 2 ^ 40 + a3 * 2 ^ 32 +
          a4 * 2 ^ 24 + a5 * 2 ^ 16 + a6 * 2 ^ 8 + a7, r)
      | _ => none
    else none

theorem readHead_cborHead (maj arg : Nat) (r : List Nat)
    (ha : arg < 2 ^ 64) :
    readHead (cborHead maj arg ++ r) = some (maj, arg, r) := by
  unfold cborHead
  split
  · rename_i h
    have h1 : (32 * maj + arg) / 32 = maj := by omega
    have h2 : (32 * maj + arg) % 32 = arg := by omega
    simp [readHead, h1, h2, h]
  split
  · rename_i h0 h
    have h1 : (32 * maj + 24) / 32 = maj := by omega
    have h2 : (32 * maj + 24) % 32 = 24 := by omega
    simp [readHead, h1, h2]
  split
  · rename_i h0 h0' h
    have h1 : (32 * maj + 25) / 32 = maj := by omega
    have h2 : (32 * maj + 25) % 32 = 25 := by omega
    simp [readHead, h1, h2]
    omega
  split
  · rename_i h0 h0' h0'' h
    have h1 : (32 * maj + 26) / 32 = maj := by omega
    have h2 : (32 * maj + 26) % 32 = 26 := by omega
    simp [readHead, h1, h2]
    omega
  · rename_i h0 h0' h0'' h0'''
    have h1 : (32 * maj + 27) / 32 = maj := by omega
    have h2 : (32 * maj + 27) % 32 = 27 := by omega
    simp [readHead, h1, h2]
    omega

theorem cborHead_length_pos (maj arg : Nat) : 1 ≤ (cborHead maj arg).length := by
  unfold cborHead
  repeat' split
  all_goals simp

/-- Read exactly `n` bytes, failing when fewer are available. -/
def takeExact (n : Nat) (bs : List Nat) : Option (List Nat × List Nat) :=
  if bs.length < n then none else some (bs.take n, bs.drop n)

theorem takeExact_append (l r : List Nat) : takeExact l.length (l ++ r) = some (l, r) := by
  unfold takeExact
  rw [if_neg (by simp)]
  simp [List.take_left, List.drop_left]

/-- Generic IPLD tree value (schemaless data model of the external codec
library; `ipld_core::ipld::Ipld` without the `Float` kind, which no claim
touches).  Map keys are UTF-8 byte strings; `BTreeMap` values appear as
key-sorted association lists. -/
inductive Ipld where
  | null : Ipld
  | bool (b : Bool) : Ipld
  | int (i : Int) : Ipld
  | bytes (bs : List Nat) : Ipld
  | str (s : Str) : Ipld
  | arr (xs : List Ipld) : Ipld
  | map (kvs : List (Str × Ipld)) : Ipld
  | link (c : Cid) : Ipld

/-- Association lists standing for `BTreeMap<String, Ipld>`. -/
abbrev IMap := List (Str × Ipld)

mutual

/-- Modelled from the spec: the canonical binary serializer contract of §6
(`serde_ipld_dagcbor` serialization of a generic tree value; order-preserving
for maps, minimal-length heads, links as tag 42 over `0x00 ++ cid`). -/
def Ipld.enc : Ipld → List Nat
  | .null => cborHead 7 22
  | .bool false => cborHead 7 20
  | .bool true => cborHead 7 21
  | .int i => if 0 ≤ i then cborHead 0 i.toNat else cborHead 1 (-(i + 1)).toNat
  | .bytes bs => cborHead 2 bs.length ++ bs
  | .str s => cborHead 3 s.length ++ s
  | .arr xs => cborHead 4 xs.length ++ Ipld.encList xs
  | .map kvs => cborHead 5 kvs.length ++ Ipld.encEntries kvs
  | .link c =>
    cborHead 6 42 ++ (cborHead 2 (0 :: cidToBytes c).length ++ (0 :: cidToBytes c))

/-- Concatenated encodings of array elements. -/
def Ipld.encList : List Ipld → List Nat
  | [] => []
  | x :: t => Ipld.enc x ++ Ipld.encList t

/-- Concatenated encodings of map entries (text key, then value). -/
def Ipld.encEntries : List (Str × Ipld) → List Nat
  | [] => []
  | (k, v) :: t => (cborHead 3 k.length ++ k) ++ (Ipld.enc v ++ Ipld.encEntries t)

end

/-- Decode `n` consecutive array elements with the given element decoder
(the element decoder already carries its fuel). -/
def Ipld.decListWith (decF : List Nat → Option (Ipld × List Nat)) :
    Nat → List Nat → Option (List Ipld × List Nat)
  | 0, bs => some ([], bs)
  | n + 1, bs =>
    match decF bs with
    | none => none
    | some (x, r) =>
      match Ipld.decListWith decF n r with
      | none => none
      | some (xs, r2) => some (x :: xs, r2)

/-- Decode `n` consecutive map entries (text key, then value). -/
def Ipld.decEntriesWith (decF : List Nat → Option (Ipld × List Nat)) :
    Nat → List Nat → Option (List (Str × Ipld) × List Nat)
  | 0, bs => some ([], bs)
  | n + 1, bs =>
    match readHead bs with
    | none => none
    | some (majk, kl, r) =>
      if majk = 3 then
        match takeExact kl r with
        | none => none
        | some (k, r2) =>
          match decF r2 with
          | none => none
          | some (v, r3) =>
            match Ipld.decEntriesWith decF n r3 with
            | none => none
            | some (kvs, r4) => some ((k, v) :: kvs, r4)
      else none

/-- Modelled from the spec: the canonical binary deserializer contract of §6
(`serde_ipld_dagcbor` decoding bytes into a generic tree value); fuelled to
make the nested recursion structural, one fuel unit per nesting level. -/
def Ipld.dec : Nat → List Nat → Option (Ipld × List Nat)
  | 0, _ => none
  | fuel + 1, bs =>
    match readHead bs with
    | none => none
    | some (maj, arg, r) =>
      if maj = 0 then some (.int (Int.ofNat arg), r)
      else if maj = 1 then some (.int (-(Int.ofNat arg + 1)), r)
      else if maj = 2 then
        match takeExact arg r with
        | none => none
        | some (b, r2) => some (.bytes b, r2)
      else if maj = 3 then
        match takeExact arg r with
        | none => none
        | some (s, r2) => some (.str s, r2)
      else if maj = 4 then
        match Ipld.decListWith (fun b2 => Ipld.dec fuel b2) arg r with
        | none => none
        | some (xs, r2) => some (.arr xs, r2)
      else if maj = 5 then
        match Ipld.decEntriesWith (fun b2 => Ipld.dec fuel b2) arg r with
        | none => none
        | some (kvs, r2) => some (.map kvs, r2)
      else if maj = 6 then
        if arg = 42 then
          match readHead r with
          | some (maj2, n, r2) =>
            if maj2 = 2 then
              match takeExact n r2 with
              | some (cb, r3) =>
                match cb with
                | 0 :: cb2 =>
                  match cidFromBytes cb2 with
                  | some c => some (.link c, r3)
                  | none => none
                | _ => none
              | none => none
            else none
          | none => none
        else none
      else
        if arg = 20 then some (.bool false, r)
        else if arg = 21 then some (.bool true, r)
        else if arg = 22 then some (.null, r)
        else none

mutual

/-- Values representable in canonical CBOR: integers within the 64-bit head
range, lengths below `2 ^ 64`, links binary-representable. -/
def Ipld.wf : Ipld → Bool
  | .null => true
  | .bool _ => true
  | .int i => decide (-(2 ^ 64 : Int) ≤ i) && decide (i < 2 ^ 64)
  | .bytes bs => decide (bs.length < 2 ^ 64)
  | .str s => decide (s.length < 2 ^ 64)
  | .arr xs => decide (xs.length < 2 ^ 64) && Ipld.wfList xs
  | .map kvs => decide (kvs.length < 2 ^ 64) && Ipld.wfEntries kvs
  | .link c => c.wfB && decide ((cidToBytes c).length + 1 < 2 ^ 64)

/-- All elements representable. -/
def Ipld.wfList : List Ipld → Bool
  | [] => true
  | x :: t => Ipld.wf x && Ipld.wfList t

/-- All entries representable (key length bounded, value representable). -/
def Ipld.wfEntries : List (Str × Ipld) → Bool
  | [] => true
  | (k, v) :: t => decide (k.length < 2 ^ 64) && Ipld.wf v && Ipld.wfEntries t

end

mutual

/-- Nesting depth, used to size the decoder fuel. -/
def Ipld.depth : Ipld → Nat
  | .arr xs => Ipld.depthList xs + 1
  | .map kvs => Ipld.depthEntries kvs + 1
  | _ => 1

/-- Maximal depth of the elements. -/
def Ipld.depthList : List Ipld → Nat
  | [] => 0
  | x :: t => max (Ipld.depth x) (Ipld.depthList t)

/-- Maximal depth of the entry values. -/
def Ipld.depthEntries : List (Str × Ipld) → Nat
  | [] => 0
  | (_, v) :: t => max (Ipld.depth v) (Ipld.depthEntries t)

end

theorem Ipld.one_le_depth (t : Ipld) : 1 ≤ t.depth := by
  cases t <;> simp [Ipld.depth]

mutual

theorem Ipld.depth_le_enc : ∀ t : Ipld, Ipld.depth t ≤ (Ipld.enc t).length
  | .null => by simp [Ipld.depth, Ipld.enc, cborHead]
  | .bool b => by cases b <;> simp [Ipld.depth, Ipld.enc, cborHead]
  | .int i => by
    have hd : Ipld.depth (.int i) = 1 := by simp [Ipld.depth]
    rw [hd]
    by_cases hi : 0 ≤ i
    · rw [show Ipld.enc (.int i) = cborHead 0 i.toNat from by simp [Ipld.enc, hi]]
      exact cborHead_length_pos 0 i.toNat
    · rw [show Ipld.enc (.int i) = cborHead 1 (-(i + 1)).toNat from by simp [Ipld.enc, hi]]
      exact cborHead_length_pos 1 (-(i + 1)).toNat
  | .bytes bs => by
    have := cborHead_length_pos 2 bs.length
    simp [Ipld.depth, Ipld.enc]
    omega
  | .str s => by
    have := cborHead_length_pos 3 s.length
    simp [Ipld.depth, Ipld.enc]
    omega
  | .arr xs => by
    have h1 := cborHead_length_pos 4 xs.length
    have h2 := Ipld.depthList_le_encList xs
    simp [Ipld.depth, Ipld.enc]
    omega
  | .map kvs => by
    have h1 := cborHead_length_pos 5 kvs.length
    have h2 := Ipld.depthEntries_le_encEntries kvs
    simp [Ipld.depth, Ipld.enc]
    omega
  | .link c => by
    have := cborHead_length_pos 6 42
    simp [Ipld.depth, Ipld.enc]
    omega

theorem Ipld.depthList_le_encList : ∀ xs : List Ipld,
    Ipld.depthList xs ≤ (Ipld.encList xs).length
  | [] => by simp [Ipld.depthList, Ipld.encList]
  | x :: t => by
    have h1 := Ipld.depth_le_enc x
    have h2 := Ipld.depthList_le_encList t
    simp [Ipld.depthList, Ipld.encList]
    omega

theorem Ipld.depthEntries_le_encEntries : ∀ kvs : List (Str × Ipld),
    Ipld.depthEntries kvs ≤ (Ipld.encEntries kvs).length
  | [] => by simp [Ipld.depthEntries, Ipld.encEntries]
  | (k, v) :: t => by
    have h1 := Ipld.depth_le_enc v
    have h2 := Ipld.depthEntries_le_encEntries t
    simp [Ipld.depthEntries, Ipld.encEntries]
    omega

end

mutual

theorem Ipld.dec_enc : ∀ (t : Ipld) (fuel : Nat) (r : List Nat),
    Ipld.wf t = true → Ipld.depth t ≤ fuel →
    Ipld.dec fuel (Ipld.enc t ++ r) = some (t, r)
  | t, fuel, r => by
    intro hwf hd
    obtain ⟨f, rfl⟩ : ∃ f, fuel = f + 1 :=
      ⟨fuel - 1, by have := Ipld.one_le_depth t; omega⟩
    cases t with
    | null =>
      simp only [Ipld.enc, Ipld.dec]
      rw [readHead_cborHead _ _ _ (by norm_num)]
      simp
    | bool b =>
      cases b <;>
        · simp only [Ipld.enc, Ipld.dec]
          rw [readHead_cborHead _ _ _ (by norm_num)]
          simp
    | int i =>
      simp only [Ipld.wf, Bool.and_eq_true, decide_eq_true_eq] at hwf
      simp only [Ipld.enc]
      by_cases hi : 0 ≤ i
      · rw [if_pos hi]
        simp only [Ipld.dec]
        rw [readHead_cborHead _ _ _ (by omega)]
        simp [Int.toNat_of_nonneg hi]
      · rw [if_neg hi]
        simp only [Ipld.dec]
        rw [readHead_cborHead _ _ _ (by omega)]
        have hn : (Int.ofNat (-(i + 1)).toNat) = -(i + 1) :=
          Int.toNat_of_nonneg (by omega)
        simp [hn]
        omega
    | bytes bs =>
      simp only [Ipld.wf, decide_eq_true_eq] at hwf
      simp only [Ipld.enc, List.append_assoc]
      simp only [Ipld.dec]
      rw [readHead_cborHead _ _ _ (by omega)]
      simp [takeExact_append]
    | str s =>
      simp only [Ipld.wf, decide_eq_true_eq] at hwf
      simp only [Ipld.enc, List.append_assoc]
      simp only [Ipld.dec]
      rw [readHead_cborHead _ _ _ (by omega)]
      simp [takeExact_append]
    | arr xs =>
      simp only [Ipld.wf, Bool.and_eq_true, decide_eq_true_eq] at hwf
      simp only [Ipld.depth] at hd
      simp only [Ipld.enc, List.append_assoc]
      simp only [Ipld.dec]
      rw [readHead_cborHead _ _ _ (by omega)]
      have hl := Ipld.decList_encList xs f r hwf.2 (by omega)
      simp [hl]
    | map kvs =>
      simp only [Ipld.wf, Bool.and_eq_true, decide_eq_true_eq] at hwf
      simp only [Ipld.depth] at hd
      simp only [Ipld.enc, List.append_assoc]
      simp only [Ipld.dec]
      rw [readHead_cborHead _ _ _ (by omega)]
      have hm := Ipld.decEntries_encEntries kvs f r hwf.2 (by omega)
      simp [hm]
    | link c =>
      simp only [Ipld.wf, Bool.and_eq_true, decide_eq_true_eq] at hwf
      have e1 : readHead (cborHead 6 42 ++
          (cborHead 2 ((cidToBytes c).length + 1) ++ (0 :: (cidToBytes c ++ r)))) =
          some (6, 42, cborHead 2 ((cidToBytes c).length + 1) ++ (0 :: (cidToBytes c ++ r))) :=
        readHead_cborHead _ _ _ (by norm_num)
      have e2 : readHead (cborHead 2 ((cidToBytes c).length + 1) ++ (0 :: (cidToBytes c ++ r))) =
          some (2, (cidToBytes c).length + 1, 0 :: (cidToBytes c ++ r)) :=
        readHead_cborHead _ _ _ (by omega)
      have e3 : takeExact ((cidToBytes c).length + 1) (0 :: (cidToBytes c ++ r)) =
          some (0 :: cidToBytes c, r) := by
        simpa using takeExact_append (0 :: cidToBytes c) r
      have e4 := cidFromBytes_toBytes c hwf.1
      simp [Ipld.enc, Ipld.dec, List.append_assoc, e1, e2, e3, e4]

theorem Ipld.decList_encList : ∀ (xs : List Ipld) (fuel : Nat) (r : List Nat),
    Ipld.wfList xs = true → Ipld.depthList xs ≤ fuel →
    Ipld.decListWith (fun b2 => Ipld.dec fuel b2) xs.length (Ipld.encList xs ++ r) =
      some (xs, r)
  | [], fuel, r => by
    intro _ _
    simp [Ipld.encList, Ipld.decListWith]
  | x :: t, fuel, r => by
    intro hwf hd
    simp only [Ipld.wfList, Bool.and_eq_true] at hwf
    simp only [Ipld.depthList, max_le_iff] at hd
    have h1 := Ipld.dec_enc x fuel (Ipld.encList t ++ r) hwf.1 hd.1
    have h2 := Ipld.decList_encList t fuel r hwf.2 hd.2
    simp [Ipld.encList, Ipld.decListWith, List.append_assoc, h1, h2]

theorem Ipld.decEntries_encEntries : ∀ (kvs : List (Str × Ipld)) (fuel : Nat) (r : List Nat),
    Ipld.wfEntries kvs = true → Ipld.depthEntries kvs ≤ fuel →
    Ipld.decEntriesWith (fun b2 => Ipld.dec fuel b2) kvs.length
      (Ipld.encEntries kvs ++ r) = some (kvs, r)
  | [], fuel, r => by
    intro _ _
    simp [Ipld.encEntries, Ipld.decEntriesWith]
  | (k, v) :: t, fuel, r => by
    intro hwf hd
    simp only [Ipld.wfEntries, Bool.and_eq_true, decide_eq_true_eq] at hwf
    simp only [Ipld.depthEntries, max_le_iff] at hd
    have e1 := readHead_cborHead 3 (List.length k)
      (k ++ (Ipld.enc v ++ (Ipld.encEntries t ++ r))) (by omega)
    have e2 := takeExact_append k (Ipld.enc v ++ (Ipld.encEntries t ++ r))
    have h1 := Ipld.dec_enc v fuel (Ipld.encEntries t ++ r) hwf.1.2 hd.1
    have h2 := Ipld.decEntries_encEntries t fuel r hwf.2 hd.2
    simp [Ipld.encEntries, Ipld.decEntriesWith, List.append_assoc, e1, e2, h1, h2]

end

/-- Sextet to character of the URL-safe base64 alphabet (RFC 4648 §5),
as used by the `base64_url` crate (`src/codec.rs` `FromBase64`/`ToBase64`). -/
def b64Char (n : Nat) : Nat :=
  if n < 26 then 65 + n
  else if n < 52 then 97 + (n - 26)
  else if n < 62 then 48 + (n - 52)
  else if n = 62 then 45
  else 95

/-- Character to sextet of the URL-safe alphabet; `none` outside it
(in particular for the padding character). -/
def b64Val (c : Nat) : Option Nat :=
  if 65 ≤ c ∧ c ≤ 90 then some (c - 65)
  else if 97 ≤ c ∧ c ≤ 122 then some (26 + (c - 97))
  else if 48 ≤ c ∧ c ≤ 57 then some (52 + (c - 48))
  else if c = 45 then some 62
  else if c = 95 then some 63
  else none

/-- Sextet to character of the standard base64 alphabet (RFC 4648 §4),
used by the DAG-JSON representation of byte strings. -/
def b64CharStd (n : Nat) : Nat :=
  if n < 26 then 65 + n
  else if n < 52 then 97 + (n - 26)
  else if n < 62 then 48 + (n - 52)
  else if n = 62 then 43
  else 47

/-- Character to sextet of the standard alphabet. -/
def b64ValStd (c : Nat) : Option Nat :=
  if 65 ≤ c ∧ c ≤ 90 then some (c - 65)
  else if 97 ≤ c ∧ c ≤ 122 then some (26 + (c - 97))
  else if 48 ≤ c ∧ c ≤ 57 then some (52 + (c - 48))
  else if c = 43 then some 62
  else if c = 47 then some 63
  else none

/-- Unpadded base64 encoding, generic in the alphabet. -/
def b64GenEncode (chr : Nat → Nat) : List Nat → List Nat
  | [] => []
  | [a] => [chr (a / 4), chr (a % 4 * 16)]
  | [a, b] => [chr (a / 4), chr (a % 4 * 16 + b / 16), chr (b % 16 * 4)]
  | a :: b :: c :: t =>
    chr (a / 4) :: chr (a % 4 * 16 + b / 16) :: chr (b % 16 * 4 + c / 64) ::
      chr (c % 64) :: b64GenEncode chr t

/-- Strict unpadded base64 decoding, generic in the alphabet: rejects
out-of-alphabet characters (hence any padding), impossible lengths and
non-zero trailing bits, exactly as the `base64` crate with the `NO_PAD`
configurations does. -/
def b64GenDecode (val : Nat → Option Nat) : List Nat → Option (List Nat)
  | [] => some []
  | [_] => none
  | [c1, c2] =>
    match val c1, val c2 with
    | some v1, some v2 => if v2 % 16 = 0 then some [v1 * 4 + v2 / 16] else none
    | _, _ => none
  | [c1, c2, c3] =>
    match val c1, val c2, val c3 with
    | some v1, some v2, some v3 =>
      if v3 % 4 = 0 then some [v1 * 4 + v2 / 16, v2 % 16 * 16 + v3 / 4] else none
    | _, _, _ => none
  | c1 :: c2 :: c3 :: c4 :: t =>
    match val c1, val c2, val c3, val c4 with
    | some v1, some v2, some v3, some v4 =>
      match b64GenDecode val t with
      | some bs =>
        some ((v1 * 4 + v2 / 16) :: (v2 % 16 * 16 + v3 / 4) :: (v3 % 4 * 64 + v4) :: bs)
      | none => none
    | _, _, _, _ => none

/-- `base64_url::encode` (URL-safe alphabet, no padding). -/
def base64urlEncode : List Nat → List Nat := b64GenEncode b64Char

/-- `base64_url::decode` (URL-safe alphabet, no padding, strict). -/
def base64urlDecode : List Nat → Option (List Nat) := b64GenDecode b64Val

/-- Standard-alphabet unpadded base64 encoding (DAG-JSON byte strings). -/
def base64StdEncode : List Nat → List Nat := b64GenEncode b64CharStd

/-- Standard-alphabet unpadded base64 decoding (DAG-JSON byte strings). -/
def base64StdDecode : List Nat → Option (List Nat) := b64GenDecode b64ValStd

theorem b64Char_val (c v : Nat) (h : b64Val c = some v) : b64Char v = c := by
  unfold b64Val at h
  split_ifs at h <;> simp_all [b64Char] <;> split_ifs <;> omega

theorem b64Val_le (c v : Nat) (h : b64Val c = some v) : v ≤ 63 := by
  unfold b64Val at h
  split_ifs at h <;> simp_all <;> omega

theorem base64urlEncode_decode_aux : ∀ (n : Nat) (s : List Nat), s.length ≤ n →
    ∀ b, base64urlDecode s = some b → base64urlEncode b = s := by
  intro n
  induction n with
  | zero =>
    intro s hs b hb
    rcases s with _ | ⟨c1, t⟩
    · simp only [base64urlDecode, b64GenDecode, Option.some.injEq] at hb
      subst hb
      rfl
    · simp at hs
  | succ n ih =>
    intro s hs
    match s with
    | [] =>
      intro b hb
      simp only [base64urlDecode, b64GenDecode, Option.some.injEq] at hb
      subst hb
      rfl
    | [c1] =>
      intro b hb
      simp [base64urlDecode, b64GenDecode] at hb
    | [c1, c2] =>
      intro b hb
      simp only [base64urlDecode, b64GenDecode] at hb
      split at hb
      · rename_i v1 v2 h1 h2
        split_ifs at hb with hz
        simp only [Option.some.injEq] at hb
        subst hb
        have e1 := b64Char_val c1 v1 h1
        have e2 := b64Val_le c1 v1 h1
        have e3 := b64Char_val c2 v2 h2
        have e4 := b64Val_le c2 v2 h2
        simp only [base64urlEncode, b64GenEncode]
        rw [show (v1 * 4 + v2 / 16) / 4 = v1 from by omega]
        rw [show (v1 * 4 + v2 / 16) % 4 * 16 = v2 from by omega]
        rw [e1, e3]
      · simp at hb
    | [c1, c2, c3] =>
      intro b hb
      simp only [base64urlDecode, b64GenDecode] at hb
      split at hb
      · rename_i v1 v2 v3 h1 h2 h3
        split_ifs at hb with hz
        simp only [Option.some.injEq] at hb
        subst hb
        have e1 := b64Char_val c1 v1 h1
        have f1 := b64Val_le c1 v1 h1
        have e2 := b64Char_val c2 v2 h2
        have f2 := b64Val_le c2 v2 h2
        have e3 := b64Char_val c3 v3 h3
        have f3 := b64Val_le c3 v3 h3
        simp only [base64urlEncode, b64GenEncode]
        rw [show (v1 * 4 + v2 / 16) / 4 = v1 from by omega]
        rw [show (v1 * 4 + v2 / 16) % 4 * 16 + (v2 % 16 * 16 + v3 / 4) / 16 = v2 from by omega]
        rw [show (v2 % 16 * 16 + v3 / 4) % 16 * 4 = v3 from by omega]
        rw [e1, e2, e3]
      · simp at hb
    | c1 :: c2 :: c3 :: c4 :: t =>
      intro b hb
      simp only [base64urlDecode, b64GenDecode] at hb
      split at hb
      · rename_i v1 v2 v3 v4 h1 h2 h3 h4
        split at hb
        · rename_i bs ht
          simp only [Option.some.injEq] at hb
          subst hb
          have e1 := b64Char_val c1 v1 h1
          have f1 := b64Val_le c1 v1 h1
          have e2 := b64Char_val c2 v2 h2
          have f2 := b64Val_le c2 v2 h2
          have e3 := b64Char_val c3 v3 h3
          have f3 := b64Val_le c3 v3 h3
          have e4 := b64Char_val c4 v4 h4
          have f4 := b64Val_le c4 v4 h4
          have htail : base64urlEncode bs = t :=
            ih t (by simp at hs; omega) bs ht
          simp only [base64urlEncode, b64GenEncode]
          rw [show (v1 * 4 + v2 / 16) / 4 = v1 from by omega]
          rw [show (v1 * 4 + v2 / 16) % 4 * 16 + (v2 % 16 * 16 + v3 / 4) / 16 = v2 from by omega]
          rw [show (v2 % 16 * 16 + v3 / 4) % 16 * 4 + (v3 % 4 * 64 + v4) / 64 = v3 from by omega]
          rw [show (v3 % 4 * 64 + v4) % 64 = v4 from by omega]
          rw [e1, e2, e3, e4]
          simp only [base64urlEncode] at htail
          rw [htail]
        · simp at hb
      · simp at hb

theorem base64urlEncode_decode (s b : List Nat) (h : base64urlDecode s = some b) :
    base64urlEncode b = s :=
  base64urlEncode_decode_aux s.length s le_rfl b h

/-- Error taxonomy of `src/error.rs` (payloads of the wrapped underlying errors
are dropped; only the variant matters to the claims). -/
inductive Error where
  | notJwe : Error
  | notJws : Error
  | invalidCid : Error
  | invalidBase64Url : Error
  | codec : Error
  | cborEncode : Error
  | cborDecode : Error
  | jsonEncode : Error
  | jsonDecode : Error
deriving DecidableEq

/-- Result of a whole decode pipeline: a value, a typed error, or a Rust panic
(the conversion layer's `expect("TODO")`). -/
inductive Outcome (α : Type) where
  | ok (a : α) : Outcome α
  | err (e : Error) : Outcome α
  | panic : Outcome α

/-- Whether an outcome carries a value. -/
def Outcome.isOk {α : Type} : Outcome α → Bool
  | .ok _ => true
  | _ => false

/-- A signature part of a JSON Web Signature (`src/lib.rs`).  The Rust field
`protected` is a Lean keyword, hence `protected_`. -/
structure Signature where
  header : IMap
  protected_ : Option Str
  signature : Str

/-- A JSON Web Signature object (`src/lib.rs`). -/
structure JsonWebSignature where
  link : Cid
  payload : Str
  signatures : List Signature

/-- A recipient of a JSON Web Encryption message (`src/lib.rs`). -/
structure Recipient where
  encrypted_key : Option Str
  header : IMap

/-- A JSON Web Encryption object (`src/lib.rs`). -/
structure JsonWebEncryption where
  aad : Option Str
  ciphertext : Str
  iv : Str
  protected_ : Str
  recipients : List Recipient
  tag : Str
  unprotected : IMap

/-- A JSON Object Signing and Encryption value (`src/lib.rs`). -/
inductive Jose where
  | signature (jws : JsonWebSignature) : Jose
  | encryption (jwe : JsonWebEncryption) : Jose

/-- Wire form of a signature (`src/codec.rs` `EncodedSignature`); fields in
declaration order: header, protected, signature. -/
structure EncodedSignature where
  header : Option IMap
  protected_ : Option (List Nat)
  signature : List Nat

/-- Wire form of a recipient (`src/codec.rs` `EncodedRecipient`); fields in
declaration order: header, encrypted_key. -/
structure EncodedRecipient where
  header : Option IMap
  encrypted_key : Option (List Nat)

/-- Wire model (`src/codec.rs` `Encoded`): the union of JWS and JWE fields as
optional raw-byte values, fields in declaration order (JWS group first, then
the JWE group, each group in canonical key order). -/
structure Encoded where
  payload : Option (List Nat)
  signatures : Option (List EncodedSignature)
  iv : Option (List Nat)
  aad : Option (List Nat)
  tag : Option (List Nat)
  protected_ : Option (List Nat)
  ciphertext : Option (List Nat)
  recipients : Option (List EncodedRecipient)
  unprotected : Option IMap

/-- Base64 form of a signature (`src/codec.rs` `DecodedSignature`). -/
structure DecodedSignature where
  header : Option IMap
  protected_ : Option Str
  signature : Str

/-- Base64 form of a recipient (`src/codec.rs` `DecodedRecipient`). -/
structure DecodedRecipient where
  encrypted_key : Option Str
  header : Option IMap

/-- Base64 wire model (`src/codec.rs` `Decoded`). -/
structure Decoded where
  payload : Option Str
  signatures : Option (List DecodedSignature)
  link : Option Cid
  aad : Option Str
  ciphertext : Option Str
  iv : Option Str
  protected_ : Option Str
  recipients : Option (List DecodedRecipient)
  tag : Option Str
  unprotected : Option IMap

/-- `FromBase64<String> for Bytes` (`src/codec.rs`): failures surface as
`Error::InvalidBase64Url`. -/
def fromBase64 (s : Str) : Except Error (List Nat) :=
  match base64urlDecode s with
  | some b => .ok b
  | none => .error .invalidBase64Url

/-- `FromBase64<Option<String>> for Option<Bytes>` (`src/codec.rs`). -/
def fromBase64Opt : Option Str → Except Error (Option (List Nat))
  | none => .ok none
  | some s => (fromBase64 s).map some

/-- `ToBase64<String> for Bytes` (`src/codec.rs`). -/
def toBase64 (b : List Nat) : Str := base64urlEncode b

/-- `ToBase64<Option<String>> for Option<Bytes>` (`src/codec.rs`). -/
def toBase64Opt : Option (List Nat) → Option Str :=
  Option.map toBase64

/-- Fallible element-wise conversion of a vector, as the
`map(TryFrom::try_from).collect::<Result<Vec<_>, _>>()` idiom of
`src/codec.rs`: the first error wins. -/
def exceptMapM {α β : Type} (f : α → Except Error β) : List α → Except Error (List β)
  | [] => .ok []
  | a :: t => do
    let b ← f a
    let bs ← exceptMapM f t
    pure (b :: bs)

/-- Fallible element-wise conversion of an optional vector, as the
`map(...collect...).transpose()?` idiom of `src/codec.rs`. -/
def optionMapM {α β : Type} (f : α → Except Error β) :
    Option (List α) → Except Error (Option (List β))
  | none => .ok none
  | some l => (exceptMapM f l).map some

/-- `TryFrom<DecodedSignature> for EncodedSignature` (`src/codec.rs`). -/
def EncodedSignature.tryFromDecodedSig (v : DecodedSignature) :
    Except Error EncodedSignature := do
  let p ← fromBase64Opt v.protected_
  let s ← fromBase64 v.signature
  pure { header := v.header, protected_ := p, signature := s }

/-- `TryFrom<DecodedRecipient> for EncodedRecipient` (`src/codec.rs`). -/
def EncodedRecipient.tryFromDecodedRec (v : DecodedRecipient) :
    Except Error EncodedRecipient := do
  let ek ← fromBase64Opt v.encrypted_key
  pure { header := v.header, encrypted_key := ek }

/-- `TryFrom<Decoded> for Encoded` (`src/codec.rs` lines 58-88), evaluating the
fallible fields in the source's struct-literal order. -/
def Encoded.tryFromDecoded (v : Decoded) : Except Error Encoded := do
  let payload ← fromBase64Opt v.payload
  let signatures ← optionMapM EncodedSignature.tryFromDecodedSig v.signatures
  let aad ← fromBase64Opt v.aad
  let ciphertext ← fromBase64Opt v.ciphertext
  let iv ← fromBase64Opt v.iv
  let protected_ ← fromBase64Opt v.protected_
  let recipients ← optionMapM EncodedRecipient.tryFromDecodedRec v.recipients
  let tag ← fromBase64Opt v.tag
  pure { payload := payload, signatures := signatures, iv := iv, aad := aad,
         tag := tag, protected_ := protected_, ciphertext := ciphertext,
         recipients := recipients, unprotected := v.unprotected }

/-- `From<EncodedSignature> for DecodedSignature` (`src/codec.rs`). -/
def DecodedSignature.fromEncodedSig (v : EncodedSignature) : DecodedSignature :=
  { header := v.header, protected_ := toBase64Opt v.protected_,
    signature := toBase64 v.signature }

/-- `From<EncodedRecipient> for DecodedRecipient` (`src/codec.rs`). -/
def DecodedRecipient.fromEncodedRec (v : EncodedRecipient) : DecodedRecipient :=
  { encrypted_key := toBase64Opt v.encrypted_key, header := v.header }

/-- The pure part of `From<Encoded> for Decoded` (`src/codec.rs` lines
191-216) once the link has been computed. -/
def Decoded.fromEncodedWith (v : Encoded) (l : Option Cid) : Decoded :=
  { payload := toBase64Opt v.payload,
    signatures := v.signatures.map (List.map DecodedSignature.fromEncodedSig),
    link := l,
    aad := toBase64Opt v.aad,
    ciphertext := toBase64Opt v.ciphertext,
    iv := toBase64Opt v.iv,
    protected_ := toBase64Opt v.protected_,
    recipients := v.recipients.map (List.map DecodedRecipient.fromEncodedRec),
    tag := toBase64Opt v.tag,
    unprotected := v.unprotected }

/-- `From<Encoded> for Decoded` (`src/codec.rs` lines 191-216).  The source
derives the link with `Cid::try_from(...).transpose().expect("TODO")`: a
present payload that is not a valid content identifier makes the conversion
panic, which this model renders as `none`. -/
def Decoded.fromEncoded (v : Encoded) : Option Decoded :=
  match v.payload with
  | none => some (Decoded.fromEncodedWith v none)
  | some p =>
    match cidFromBytes p with
    | some c => some (Decoded.fromEncodedWith v (some c))
    | none => none

/-- `From<Signature> for DecodedSignature` (`src/codec.rs` lines 303-315):
an empty header map becomes wire-absent. -/
def DecodedSignature.fromSignature (v : Signature) : DecodedSignature :=
  { header := if v.header.isEmpty then none else some v.header,
    protected_ := v.protected_,
    signature := v.signature }

/-- `From<Recipient> for DecodedRecipient` (`src/codec.rs`). -/
def DecodedRecipient.fromRecipient (v : Recipient) : DecodedRecipient :=
  { encrypted_key := v.encrypted_key,
    header := if v.header.isEmpty then none else some v.header }

/-- `From<JsonWebSignature> for Decoded` (`src/codec.rs` lines 218-243):
an empty signature list becomes wire-absent. -/
def Decoded.fromJws (v : JsonWebSignature) : Decoded :=
  { payload := some v.payload,
    signatures :=
      if v.signatures.isEmpty then none
      else some (v.signatures.map DecodedSignature.fromSignature),
    link := some v.link,
    aad := none, ciphertext := none, iv := none, protected_ := none,
    recipients := none, tag := none, unprotected := none }

/-- `From<JsonWebEncryption> for Decoded` (`src/codec.rs` lines 244-273):
empty recipients and empty unprotected map become wire-absent. -/
def Decoded.fromJwe (v : JsonWebEncryption) : Decoded :=
  { payload := none, signatures := none, link := none,
    aad := v.aad,
    ciphertext := some v.ciphertext,
    iv := some v.iv,
    protected_ := some v.protected_,
    recipients :=
      if v.recipients.isEmpty then none
      else some (v.recipients.map DecodedRecipient.fromRecipient),
    tag := some v.tag,
    unprotected := if v.unprotected.isEmpty then none else some v.unprotected }

/-- `From<Jose> for Decoded` (`src/codec.rs` lines 274-281). -/
def Decoded.fromJose : Jose → Decoded
  | .signature jws => Decoded.fromJws jws
  | .encryption jwe => Decoded.fromJwe jwe

/-- Modelled from the spec: `Signature` reconstruction inside the missing
`TryFrom<Encoded>` conversions; "absent `header` maps to an empty mapping"
(spec §4.1). -/
def Signature.fromDecodedSig (v : DecodedSignature) : Signature :=
  { header := v.header.getD [], protected_ := v.protected_,
    signature := v.signature }

/-- Modelled from the spec: `Recipient` reconstruction. -/
def Recipient.fromDecodedRec (v : DecodedRecipient) : Recipient :=
  { encrypted_key := v.encrypted_key, header := v.header.getD [] }

/-- Modelled from the spec: the JWS half of the wire-to-domain conversion
(`TryFrom<Encoded> for JsonWebSignature`, declared by the codec entry points
of `src/lib.rs` but not among the source files).  Spec §4.1: the payload must
be present or decode fails with "not a JWS"; the link was derived from the
payload bytes; absent signature lists map to empty ones. -/
def JsonWebSignature.tryFromDecoded (v : Decoded) :
    Except Error JsonWebSignature :=
  match v.payload, v.link with
  | some p, some l =>
    .ok { link := l, payload := p,
          signatures := (v.signatures.getD []).map Signature.fromDecodedSig }
  | _, _ => .error .notJws

/-- Modelled from the spec: the JWE half of the wire-to-domain conversion.
Spec §4.1: `ciphertext`, `iv`, `protected`, `tag` must all be present or
decode fails with "not a JWE"; `aad` stays optional; absent
`recipients`/`unprotected` map to empty collections. -/
def JsonWebEncryption.tryFromDecoded (v : Decoded) :
    Except Error JsonWebEncryption :=
  match v.ciphertext, v.iv, v.protected_, v.tag with
  | some c, some i, some p, some t =>
    .ok { aad := v.aad, ciphertext := c, iv := i, protected_ := p,
          recipients := (v.recipients.getD []).map Recipient.fromDecodedRec,
          tag := t,
          unprotected := v.unprotected.getD [] }
  | _, _, _, _ => .error .notJwe

/-- Whether any field of the JWS group is populated. -/
def Decoded.hasJwsFields (v : Decoded) : Bool :=
  v.payload.isSome || v.signatures.isSome

/-- Whether any field of the JWE group is populated. -/
def Decoded.hasJweFields (v : Decoded) : Bool :=
  v.aad.isSome || v.ciphertext.isSome || v.iv.isSome || v.protected_.isSome ||
    v.recipients.isSome || v.tag.isSome || v.unprotected.isSome

/-- Modelled from the spec: `TryFrom<Encoded> for Jose` (via `Decoded`),
declared by `Codec<Jose>::decode` in `src/lib.rs` but not among the source
files.  Spec §3/§8: exactly one field group may be populated, "decoding bytes
with both JWS and JWE field groups present must fail"; §4.1: "if `payload` is
present → JWS path, else → JWE path". -/
def Jose.tryFromDecoded (v : Decoded) : Except Error Jose :=
  if v.hasJwsFields && v.hasJweFields then .error .notJws
  else if v.payload.isSome then
    (JsonWebSignature.tryFromDecoded v).map Jose.signature
  else
    (JsonWebEncryption.tryFromDecoded v).map Jose.encryption

/-- Wire key "payload". -/
def kPayload : Str := [112, 97, 121, 108, 111, 97, 100]

/-- Wire key "signatures". -/
def kSignatures : Str := [115, 105, 103, 110, 97, 116, 117, 114, 101, 115]

/-- Wire key "iv". -/
def kIv : Str := [105, 118]

/-- Wire key "aad". -/
def kAad : Str := [97, 97, 100]

/-- Wire key "tag". -/
def kTag : Str := [116, 97, 103]

/-- Wire key "protected". -/
def kProtected : Str := [112, 114, 111, 116, 101, 99, 116, 101, 100]

/-- Wire key "ciphertext". -/
def kCiphertext : Str := [99, 105, 112, 104, 101, 114, 116, 101, 120, 116]

/-- Wire key "recipients". -/
def kRecipients : Str := [114, 101, 99, 105, 112, 105, 101, 110, 116, 115]

/-- Wire key "unprotected". -/
def kUnprotected : Str := [117, 110, 112, 114, 111, 116, 101, 99, 116, 101, 100]

/-- Wire key "header". -/
def kHeader : Str := [104, 101, 97, 100, 101, 114]

/-- Wire key "signature". -/
def kSignature : Str := [115, 105, 103, 110, 97, 116, 117, 114, 101]

/-- Wire key "encrypted_key". -/
def kEncryptedKey : Str := [101, 110, 99, 114, 121, 112, 116, 101, 100, 95, 107, 101, 121]

/-- Wire key "link" (only in the DAG-JSON form of a JWS). -/
def kLink : Str := [108, 105, 110, 107]

/-- One optional struct field under serde's `skip_serializing_if`:
present fields contribute one map entry, absent fields none. -/
def optField (k : Str) : Option Ipld → IMap
  | none => []
  | some v => [(k, v)]

/-- Serde serialization of `EncodedSignature` as an ordered entry list
(declaration order: header, protected, signature). -/
def EncodedSignature.fields (s : EncodedSignature) : IMap :=
  optField kHeader (s.header.map Ipld.map) ++
  optField kProtected (s.protected_.map Ipld.bytes) ++
  [(kSignature, Ipld.bytes s.signature)]

/-- The signature map emitted on the wire. -/
def EncodedSignature.toIpld (s : EncodedSignature) : Ipld := .map s.fields

/-- Serde serialization of `EncodedRecipient` as an ordered entry list
(declaration order: header, encrypted_key). -/
def EncodedRecipient.fields (x : EncodedRecipient) : IMap :=
  optField kHeader (x.header.map Ipld.map) ++
  optField kEncryptedKey (x.encrypted_key.map Ipld.bytes)

/-- The recipient map emitted on the wire. -/
def EncodedRecipient.toIpld (x : EncodedRecipient) : Ipld := .map x.fields

/-- Serde serialization of `Encoded` as an ordered entry list, in declaration
order with absent options skipped (`src/codec.rs` lines 26-56). -/
def Encoded.fields (e : Encoded) : IMap :=
  optField kPayload (e.payload.map Ipld.bytes) ++
  optField kSignatures (e.signatures.map (fun l => Ipld.arr (l.map EncodedSignature.toIpld))) ++
  optField kIv (e.iv.map Ipld.bytes) ++
  optField kAad (e.aad.map Ipld.bytes) ++
  optField kTag (e.tag.map Ipld.bytes) ++
  optField kProtected (e.protected_.map Ipld.bytes) ++
  optField kCiphertext (e.ciphertext.map Ipld.bytes) ++
  optField kRecipients (e.recipients.map (fun l => Ipld.arr (l.map EncodedRecipient.toIpld))) ++
  optField kUnprotected (e.unprotected.map Ipld.map)

/-- The top-level map emitted on the wire. -/
def Encoded.toIpld (e : Encoded) : Ipld := .map e.fields

/-- First binding of a key in an entry list. -/
def lookupKey : IMap → Str → Option Ipld
  | [], _ => none
  | (k2, v) :: t, k => if k2 = k then some v else lookupKey t k

/-- Byte-string view of a tree node. -/
def Ipld.asBytes : Ipld → Option (List Nat)
  | .bytes b => some b
  | _ => none

/-- Map view of a tree node. -/
def Ipld.asMap : Ipld → Option IMap
  | .map m => some m
  | _ => none

/-- Array view of a tree node. -/
def Ipld.asArr : Ipld → Option (List Ipld)
  | .arr l => some l
  | _ => none

/-- Read an optional struct field: absence is fine, a present value must parse. -/
def getOpt {α : Type} (m : IMap) (k : Str) (f : Ipld → Option α) : Option (Option α) :=
  match lookupKey m k with
  | none => some none
  | some v => (f v).map some

/-- Element-wise traversal of a list under a fallible parser (serde's
sequence deserialization). -/
def optTraverse {α β : Type} (f : α → Option β) : List α → Option (List β)
  | [] => some []
  | a :: t =>
    match f a, optTraverse f t with
    | some b, some bs => some (b :: bs)
    | _, _ => none

/-- Serde deserialization of a signature map (`EncodedSignature`):
`header` and `protected` optional, `signature` required. -/
def EncodedSignature.fromIpld (t : Ipld) : Option EncodedSignature := do
  let m ← t.asMap
  let h ← getOpt m kHeader Ipld.asMap
  let p ← getOpt m kProtected Ipld.asBytes
  let sv ← lookupKey m kSignature
  let s ← sv.asBytes
  pure { header := h, protected_ := p, signature := s }

/-- Serde deserialization of a recipient map (`EncodedRecipient`). -/
def EncodedRecipient.fromIpld (t : Ipld) : Option EncodedRecipient := do
  let m ← t.asMap
  let h ← getOpt m kHeader Ipld.asMap
  let ek ← getOpt m kEncryptedKey Ipld.asBytes
  pure { header := h, encrypted_key := ek }

/-- Serde deserialization of the wire struct `Encoded` from a decoded tree:
every field optional, unknown keys ignored. -/
def Encoded.fromIpld (t : Ipld) : Option Encoded := do
  let m ← t.asMap
  let payload ← getOpt m kPayload Ipld.asBytes
  let signatures ← getOpt m kSignatures
    (fun v => (v.asArr).bind (optTraverse EncodedSignature.fromIpld))
  let iv ← getOpt m kIv Ipld.asBytes
  let aad ← getOpt m kAad Ipld.asBytes
  let tag ← getOpt m kTag Ipld.asBytes
  let protected_ ← getOpt m kProtected Ipld.asBytes
  let ciphertext ← getOpt m kCiphertext Ipld.asBytes
  let recipients ← getOpt m kRecipients
    (fun v => (v.asArr).bind (optTraverse EncodedRecipient.fromIpld))
  let unprotected ← getOpt m kUnprotected Ipld.asMap
  pure { payload := payload, signatures := signatures, iv := iv, aad := aad,
         tag := tag, protected_ := protected_, ciphertext := ciphertext,
         recipients := recipients, unprotected := unprotected }

theorem lookupKey_append (m1 m2 : IMap) (k : Str) :
    lookupKey (m1 ++ m2) k =
      match lookupKey m1 k with
      | some v => some v
      | none => lookupKey m2 k := by
  induction m1 with
  | nil => simp [lookupKey]
  | cons kv t ihm =>
    rcases kv with ⟨k2, v⟩
    by_cases h : k2 = k <;> simp [lookupKey, h, ihm]

theorem lookupKey_optField (k2 k : Str) (ov : Option Ipld) :
    lookupKey (optField k2 ov) k = if k2 = k then ov else none := by
  cases ov <;> simp [optField, lookupKey]

theorem Encoded.lookup_payload (e : Encoded) :
    lookupKey e.fields kPayload = e.payload.map Ipld.bytes := by
  simp [Encoded.fields, lookupKey_append, lookupKey_optField,
    kPayload, kSignatures, kIv, kAad, kTag, kProtected, kCiphertext,
    kRecipients, kUnprotected]
  cases e.payload <;> rfl

theorem Encoded.lookup_signatures (e : Encoded) :
    lookupKey e.fields kSignatures =
      e.signatures.map (fun l => Ipld.arr (l.map EncodedSignature.toIpld)) := by
  simp [Encoded.fields, lookupKey_append, lookupKey_optField,
    kPayload, kSignatures, kIv, kAad, kTag, kProtected, kCiphertext,
    kRecipients, kUnprotected]
  cases e.signatures <;> rfl

theorem Encoded.lookup_iv (e : Encoded) :
    lookupKey e.fields kIv = e.iv.map Ipld.bytes := by
  simp [Encoded.fields, lookupKey_append, lookupKey_optField,
    kPayload, kSignatures, kIv, kAad, kTag, kProtected, kCiphertext,
    kRecipients, kUnprotected]
  cases e.iv <;> rfl

theorem Encoded.lookup_aad (e : Encoded) :
    lookupKey e.fields kAad = e.aad.map Ipld.bytes := by
  simp [Encoded.fields, lookupKey_append, lookupKey_optField,
    kPayload, kSignatures, kIv, kAad, kTag, kProtected, kCiphertext,
    kRecipients, kUnprotected]
  cases e.aad <;> rfl

theorem Encoded.lookup_tag (e : Encoded) :
    lookupKey e.fields kTag = e.tag.map Ipld.bytes := by
  simp [Encoded.fields, lookupKey_append, lookupKey_optField,
    kPayload, kSignatures, kIv, kAad, kTag, kProtected, kCiphertext,
    kRecipients, kUnprotected]
  cases e.tag <;> rfl

theorem Encoded.lookup_protected (e : Encoded) :
    lookupKey e.fields kProtected = e.protected_.map Ipld.bytes := by
  simp [Encoded.fields, lookupKey_append, lookupKey_optField,
    kPayload, kSignatures, kIv, kAad, kTag, kProtected, kCiphertext,
    kRecipients, kUnprotected]
  cases e.protected_ <;> rfl

theorem Encoded.lookup_ciphertext (e : Encoded) :
    lookupKey e.fields kCiphertext = e.ciphertext.map Ipld.bytes := by
  simp [Encoded.fields, lookupKey_append, lookupKey_optField,
    kPayload, kSignatures, kIv, kAad, kTag, kProtected, kCiphertext,
    kRecipients, kUnprotected]
  cases e.ciphertext <;> rfl

theorem Encoded.lookup_recipients (e : Encoded) :
    lookupKey e.fields kRecipients =
      e.recipients.map (fun l => Ipld.arr (l.map EncodedRecipient.toIpld)) := by
  simp [Encoded.fields, lookupKey_append, lookupKey_optField,
    kPayload, kSignatures, kIv, kAad, kTag, kProtected, kCiphertext,
    kRecipients, kUnprotected]
  cases e.recipients <;> rfl

theorem Encoded.lookup_unprotected (e : Encoded) :
    lookupKey e.fields kUnprotected = e.unprotected.map Ipld.map := by
  simp [Encoded.fields, lookupKey_append, lookupKey_optField,
    kPayload, kSignatures, kIv, kAad, kTag, kProtected, kCiphertext,
    kRecipients, kUnprotected]

theorem EncodedSignature.sig_fromIpld_toIpld (s : EncodedSignature) :
    EncodedSignature.fromIpld s.toIpld = some s := by
  rcases s with ⟨h, p, sg⟩
  cases h <;> cases p <;> rfl

theorem EncodedRecipient.rec_fromIpld_toIpld (x : EncodedRecipient) :
    EncodedRecipient.fromIpld x.toIpld = some x := by
  rcases x with ⟨h, ek⟩
  cases h <;> cases ek <;> rfl

theorem optTraverse_sig_fromIpld (ss : List EncodedSignature) :
    optTraverse EncodedSignature.fromIpld (ss.map EncodedSignature.toIpld) = some ss := by
  induction ss with
  | nil => rfl
  | cons s t ihs => simp [optTraverse, EncodedSignature.sig_fromIpld_toIpld, ihs]

theorem optTraverse_rec_fromIpld (rs : List EncodedRecipient) :
    optTraverse EncodedRecipient.fromIpld (rs.map EncodedRecipient.toIpld) = some rs := by
  induction rs with
  | nil => rfl
  | cons x t ihr => simp [optTraverse, EncodedRecipient.rec_fromIpld_toIpld, ihr]

theorem getOpt_fields_payload (e : Encoded) :
    getOpt e.fields kPayload Ipld.asBytes = some e.payload := by
  unfold getOpt
  rw [Encoded.lookup_payload]
  cases e.payload <;> rfl

theorem getOpt_fields_signatures (e : Encoded) :
    getOpt e.fields kSignatures
      (fun v => (v.asArr).bind (optTraverse EncodedSignature.fromIpld)) =
      some e.signatures := by
  unfold getOpt
  rw [Encoded.lookup_signatures]
  cases e.signatures with
  | none => rfl
  | some ss => simp [Ipld.asArr, optTraverse_sig_fromIpld]

theorem getOpt_fields_iv (e : Encoded) :
    getOpt e.fields kIv Ipld.asBytes = some e.iv := by
  unfold getOpt
  rw [Encoded.lookup_iv]
  cases e.iv <;> rfl

theorem getOpt_fields_aad (e : Encoded) :
    getOpt e.fields kAad Ipld.asBytes = some e.aad := by
  unfold getOpt
  rw [Encoded.lookup_aad]
  cases e.aad <;> rfl

theorem getOpt_fields_tag (e : Encoded) :
    getOpt e.fields kTag Ipld.asBytes = some e.tag := by
  unfold getOpt
  rw [Encoded.lookup_tag]
  cases e.tag <;> rfl

theorem getOpt_fields_protected (e : Encoded) :
    getOpt e.fields kProtected Ipld.asBytes = some e.protected_ := by
  unfold getOpt
  rw [Encoded.lookup_protected]
  cases e.protected_ <;> rfl

theorem getOpt_fields_ciphertext (e : Encoded) :
    getOpt e.fields kCiphertext Ipld.asBytes = some e.ciphertext := by
  unfold getOpt
  rw [Encoded.lookup_ciphertext]
  cases e.ciphertext <;> rfl

theorem getOpt_fields_recipients (e : Encoded) :
    getOpt e.fields kRecipients
      (fun v => (v.asArr).bind (optTraverse EncodedRecipient.fromIpld)) =
      some e.recipients := by
  unfold getOpt
  rw [Encoded.lookup_recipients]
  cases e.recipients with
  | none => rfl
  | some rs => simp [Ipld.asArr, optTraverse_rec_fromIpld]

theorem getOpt_fields_unprotected (e : Encoded) :
    getOpt e.fields kUnprotected Ipld.asMap = some e.unprotected := by
  unfold getOpt
  rw [Encoded.lookup_unprotected]
  cases e.unprotected <;> rfl

theorem Encoded.fromIpld_toIpld (e : Encoded) :
    Encoded.fromIpld e.toIpld = some e := by
  have h1 := getOpt_fields_payload e
  have h2 := getOpt_fields_signatures e
  have h3 := getOpt_fields_iv e
  have h4 := getOpt_fields_aad e
  have h5 := getOpt_fields_tag e
  have h6 := getOpt_fields_protected e
  have h7 := getOpt_fields_ciphertext e
  have h8 := getOpt_fields_recipients e
  have h9 := getOpt_fields_unprotected e
  simp [Encoded.fromIpld, Encoded.toIpld, Ipld.asMap,
    h1, h2, h3, h4, h5, h6, h7, h8, h9]

/-- Lift a predicate over an optional value (absent values are fine). -/
def optB {α : Type} (f : α → Bool) : Option α → Bool
  | none => true
  | some a => f a

/-- Representable `BTreeMap<String, Ipld>` contents. -/
def IMap.wfB (m : IMap) : Bool :=
  decide (m.length < 2 ^ 64) && Ipld.wfEntries m

/-- Representable wire signature. -/
def EncodedSignature.wfB (s : EncodedSignature) : Bool :=
  optB IMap.wfB s.header &&
  optB (fun p => decide (p.length < 2 ^ 64)) s.protected_ &&
  decide (s.signature.length < 2 ^ 64)

/-- Representable wire recipient. -/
def EncodedRecipient.wfB (x : EncodedRecipient) : Bool :=
  optB IMap.wfB x.header &&
  optB (fun p => decide (p.length < 2 ^ 64)) x.encrypted_key

/-- Representable wire value: every byte string, list and map small enough for
a canonical CBOR head, recursively. -/
def Encoded.wfB (e : Encoded) : Bool :=
  optB (fun b => decide (b.length < 2 ^ 64)) e.payload &&
  optB (fun l => decide (l.length < 2 ^ 64) && l.all EncodedSignature.wfB) e.signatures &&
  optB (fun b => decide (b.length < 2 ^ 64)) e.iv &&
  optB (fun b => decide (b.length < 2 ^ 64)) e.aad &&
  optB (fun b => decide (b.length < 2 ^ 64)) e.tag &&
  optB (fun b => decide (b.length < 2 ^ 64)) e.protected_ &&
  optB (fun b => decide (b.length < 2 ^ 64)) e.ciphertext &&
  optB (fun l => decide (l.length < 2 ^ 64) && l.all EncodedRecipient.wfB) e.recipients &&
  optB IMap.wfB e.unprotected

theorem optField_length_le (k : Str) (v : Option Ipld) : (optField k v).length ≤ 1 := by
  cases v <;> simp [optField]

theorem wfEntries_append (m1 m2 : IMap) :
    Ipld.wfEntries (m1 ++ m2) = (Ipld.wfEntries m1 && Ipld.wfEntries m2) := by
  induction m1 with
  | nil => simp [Ipld.wfEntries]
  | cons kv t ihm =>
    rcases kv with ⟨k, v⟩
    simp [Ipld.wfEntries, ihm, Bool.and_assoc]

theorem EncodedSignature.sig_wf_toIpld (s : EncodedSignature)
    (h : s.wfB = true) : Ipld.wf s.toIpld = true := by
  rcases s with ⟨hh, p, sg⟩
  simp only [EncodedSignature.wfB, Bool.and_eq_true] at h
  obtain ⟨⟨h1, h2⟩, h3⟩ := h
  cases hh <;> cases p <;>
    simp_all [EncodedSignature.toIpld, EncodedSignature.fields, optField,
      Ipld.wf, Ipld.wfEntries, IMap.wfB, optB, kHeader, kProtected, kSignature]

theorem EncodedRecipient.rec_wf_toIpld (x : EncodedRecipient)
    (h : x.wfB = true) : Ipld.wf x.toIpld = true := by
  rcases x with ⟨hh, ek⟩
  simp only [EncodedRecipient.wfB, Bool.and_eq_true] at h
  obtain ⟨h1, h2⟩ := h
  cases hh <;> cases ek <;>
    simp_all [EncodedRecipient.toIpld, EncodedRecipient.fields, optField,
      Ipld.wf, Ipld.wfEntries, IMap.wfB, optB, kHeader, kEncryptedKey]

theorem wfList_map_sig (l : List EncodedSignature)
    (h : l.all EncodedSignature.wfB = true) :
    Ipld.wfList (l.map EncodedSignature.toIpld) = true := by
  induction l with
  | nil => rfl
  | cons s t ihs =>
    simp only [List.all_cons, Bool.and_eq_true] at h
    simp [Ipld.wfList, EncodedSignature.sig_wf_toIpld s h.1, ihs h.2]

theorem wfList_map_rec (l : List EncodedRecipient)
    (h : l.all EncodedRecipient.wfB = true) :
    Ipld.wfList (l.map EncodedRecipient.toIpld) = true := by
  induction l with
  | nil => rfl
  | cons x t ihr =>
    simp only [List.all_cons, Bool.and_eq_true] at h
    simp [Ipld.wfList, EncodedRecipient.rec_wf_toIpld x h.1, ihr h.2]

theorem Encoded.wf_toIpld (e : Encoded) (h : e.wfB = true) :
    Ipld.wf e.toIpld = true := by
  have hlen : e.fields.length < 2 ^ 64 := by
    have l1 := optField_length_le kPayload (e.payload.map Ipld.bytes)
    have l2 := optField_length_le kSignatures
      (e.signatures.map (fun l => Ipld.arr (l.map EncodedSignature.toIpld)))
    have l3 := optField_length_le kIv (e.iv.map Ipld.bytes)
    have l4 := optField_length_le kAad (e.aad.map Ipld.bytes)
    have l5 := optField_length_le kTag (e.tag.map Ipld.bytes)
    have l6 := optField_length_le kProtected (e.protected_.map Ipld.bytes)
    have l7 := optField_length_le kCiphertext (e.ciphertext.map Ipld.bytes)
    have l8 := optField_length_le kRecipients
      (e.recipients.map (fun l => Ipld.arr (l.map EncodedRecipient.toIpld)))
    have l9 := optField_length_le kUnprotected (e.unprotected.map Ipld.map)
    simp only [Encoded.fields, List.length_append]
    omega
  simp only [Encoded.wfB, Bool.and_eq_true] at h
  obtain ⟨⟨⟨⟨⟨⟨⟨⟨h1, h2⟩, h3⟩, h4⟩, h5⟩, h6⟩, h7⟩, h8⟩, h9⟩ := h
  simp only [Encoded.toIpld, Ipld.wf, Bool.and_eq_true, decide_eq_true_eq]
  refine ⟨hlen, ?_⟩
  simp only [Encoded.fields, wfEntries_append, Bool.and_eq_true]
  refine ⟨⟨⟨⟨⟨⟨⟨⟨?_, ?_⟩, ?_⟩, ?_⟩, ?_⟩, ?_⟩, ?_⟩, ?_⟩, ?_⟩
  · rcases hp : e.payload with _ | b
    · simp [optField, Ipld.wfEntries]
    · rw [hp] at h1
      simp_all [optField, Ipld.wfEntries, Ipld.wf, optB, kPayload]
  · rcases hs : e.signatures with _ | l
    · simp [optField, Ipld.wfEntries]
    · rw [hs] at h2
      simp only [optB, Bool.and_eq_true, decide_eq_true_eq] at h2
      have hl := h2.1
      simp [optField, Ipld.wfEntries, Ipld.wf, kSignatures,
        wfList_map_sig l h2.2]
      all_goals omega
  · rcases hx : e.iv with _ | b
    · simp [optField, Ipld.wfEntries]
    · rw [hx] at h3
      simp_all [optField, Ipld.wfEntries, Ipld.wf, optB, kIv]
  · rcases hx : e.aad with _ | b
    · simp [optField, Ipld.wfEntries]
    · rw [hx] at h4
      simp_all [optField, Ipld.wfEntries, Ipld.wf, optB, kAad]
  · rcases hx : e.tag with _ | b
    · simp [optField, Ipld.wfEntries]
    · rw [hx] at h5
      simp_all [optField, Ipld.wfEntries, Ipld.wf, optB, kTag]
  · rcases hx : e.protected_ with _ | b
    · simp [optField, Ipld.wfEntries]
    · rw [hx] at h6
      simp_all [optField, Ipld.wfEntries, Ipld.wf, optB, kProtected]
  · rcases hx : e.ciphertext with _ | b
    · simp [optField, Ipld.wfEntries]
    · rw [hx] at h7
      simp_all [optField, Ipld.wfEntries, Ipld.wf, optB, kCiphertext]
  · rcases hr : e.recipients with _ | l
    · simp [optField, Ipld.wfEntries]
    · rw [hr] at h8
      simp only [optB, Bool.and_eq_true, decide_eq_true_eq] at h8
      have hl := h8.1
      simp [optField, Ipld.wfEntries, Ipld.wf, kRecipients,
        wfList_map_rec l h8.2]
      all_goals omega
  · rcases hu : e.unprotected with _ | m
    · simp [optField, Ipld.wfEntries]
    · rw [hu] at h9
      simp only [optB, IMap.wfB, Bool.and_eq_true, decide_eq_true_eq] at h9
      have hl := h9.1
      simp [optField, Ipld.wfEntries, Ipld.wf, kUnprotected, h9.2]
      all_goals omega

/-- Decode a whole byte stream into a generic tree value, requiring full
consumption (`serde_ipld_dagcbor::from_reader` at the `Ipld` type,
`Codec<Ipld> for DagJoseCodec` in `src/lib.rs`). -/
def decodeIpldTop (bs : List Nat) : Option Ipld :=
  match Ipld.dec (bs.length + 1) bs with
  | some (t, []) => some t
  | _ => none

theorem decodeIpldTop_enc (t : Ipld) (h : Ipld.wf t = true) :
    decodeIpldTop (Ipld.enc t) = some t := by
  unfold decodeIpldTop
  have hd := Ipld.dec_enc t ((Ipld.enc t).length + 1) [] h
    (le_trans (Ipld.depth_le_enc t) (by omega))
  rw [List.append_nil] at hd
  rw [hd]

/-- `Codec<Jose>::encode` for the binary codec (`src/lib.rs` lines 127-130):
domain value → `Decoded` → `Encoded` → canonical CBOR bytes. -/
def DagJoseCodec.encodeJose (v : Jose) : Except Error (List Nat) :=
  (Encoded.tryFromDecoded (Decoded.fromJose v)).map (fun e => Ipld.enc e.toIpld)

/-- `Codec<JsonWebSignature>::encode` for the binary codec (`src/lib.rs`
lines 184-187). -/
def DagJoseCodec.encodeJws (v : JsonWebSignature) : Except Error (List Nat) :=
  (Encoded.tryFromDecoded (Decoded.fromJws v)).map (fun e => Ipld.enc e.toIpld)

/-- `Codec<JsonWebEncryption>::encode` for the binary codec (`src/lib.rs`
lines 306-309). -/
def DagJoseCodec.encodeJwe (v : JsonWebEncryption) : Except Error (List Nat) :=
  (Encoded.tryFromDecoded (Decoded.fromJwe v)).map (fun e => Ipld.enc e.toIpld)

/-- `Codec<Jose>::decode` for the binary codec (`src/lib.rs` lines 122-125):
bytes → `Encoded` (serde) → `Decoded` (link derivation; panics on an invalid
payload identifier) → `Jose` (spec-modelled variant dispatch). -/
def DagJoseCodec.decodeJose (bs : List Nat) : Outcome Jose :=
  match decodeIpldTop bs with
  | none => .err .cborDecode
  | some t =>
    match Encoded.fromIpld t with
    | none => .err .cborDecode
    | some e =>
      match Decoded.fromEncoded e with
      | none => .panic
      | some d =>
        match Jose.tryFromDecoded d with
        | .ok v => .ok v
        | .error er => .err er

theorem fromBase64_inv (s : Str) (b : List Nat) (h : fromBase64 s = .ok b) :
    toBase64 b = s := by
  unfold fromBase64 at h
  rcases hd : base64urlDecode s with _ | b2 <;> rw [hd] at h
  · exact absurd h (by simp)
  · simp only [Except.ok.injEq] at h
    subst h
    exact base64urlEncode_decode s b2 hd

theorem fromBase64Opt_inv (o : Option Str) (p : Option (List Nat))
    (h : fromBase64Opt o = .ok p) : toBase64Opt p = o := by
  cases o with
  | none =>
    simp only [fromBase64Opt, Except.ok.injEq] at h
    subst h
    rfl
  | some s =>
    simp only [fromBase64Opt] at h
    rcases hb : fromBase64 s with er | b <;> rw [hb] at h <;>
      simp only [Except.map, Except.ok.injEq] at h
    · exact absurd h (by simp)
    · subst h
      simp [toBase64Opt, fromBase64_inv s b hb]

theorem tryFromDecodedSig_inv (ds : DecodedSignature) (es : EncodedSignature)
    (h : EncodedSignature.tryFromDecodedSig ds = .ok es) :
    DecodedSignature.fromEncodedSig es = ds := by
  simp only [EncodedSignature.tryFromDecodedSig, bind, Except.bind] at h
  rcases hp : fromBase64Opt ds.protected_ with er | p <;> rw [hp] at h
  · exact absurd h (by simp)
  rcases hs : fromBase64 ds.signature with er | sg <;> rw [hs] at h
  · exact absurd h (by simp)
  simp only [pure, Except.pure, Except.ok.injEq] at h
  subst h
  simp [DecodedSignature.fromEncodedSig, fromBase64Opt_inv _ _ hp,
    fromBase64_inv _ _ hs]

theorem tryFromDecodedRec_inv (dr : DecodedRecipient) (er : EncodedRecipient)
    (h : EncodedRecipient.tryFromDecodedRec dr = .ok er) :
    DecodedRecipient.fromEncodedRec er = dr := by
  simp only [EncodedRecipient.tryFromDecodedRec, bind, Except.bind] at h
  rcases hk : fromBase64Opt dr.encrypted_key with e2 | ek <;> rw [hk] at h
  · exact absurd h (by simp)
  simp only [pure, Except.pure, Except.ok.injEq] at h
  subst h
  simp [DecodedRecipient.fromEncodedRec, fromBase64Opt_inv _ _ hk]

theorem exceptMapM_sig_inv (l : List DecodedSignature) (es : List EncodedSignature)
    (h : exceptMapM EncodedSignature.tryFromDecodedSig l = .ok es) :
    es.map DecodedSignature.fromEncodedSig = l := by
  induction l generalizing es with
  | nil =>
    simp only [exceptMapM, Except.ok.injEq] at h
    subst h
    rfl
  | cons d t ihl =>
    simp only [exceptMapM, bind, Except.bind] at h
    rcases h1 : EncodedSignature.tryFromDecodedSig d with e1 | es1 <;> rw [h1] at h
    · exact absurd h (by simp)
    rcases h2 : exceptMapM EncodedSignature.tryFromDecodedSig t with e2 | est <;>
      rw [h2] at h
    · exact absurd h (by simp)
    simp only [pure, Except.pure, Except.ok.injEq] at h
    subst h
    simp [tryFromDecodedSig_inv d es1 h1, ihl est h2]

theorem exceptMapM_rec_inv (l : List DecodedRecipient) (es : List EncodedRecipient)
    (h : exceptMapM EncodedRecipient.tryFromDecodedRec l = .ok es) :
    es.map DecodedRecipient.fromEncodedRec = l := by
  induction l generalizing es with
  | nil =>
    simp only [exceptMapM, Except.ok.injEq] at h
    subst h
    rfl
  | cons d t ihl =>
    simp only [exceptMapM, bind, Except.bind] at h
    rcases h1 : EncodedRecipient.tryFromDecodedRec d with e1 | es1 <;> rw [h1] at h
    · exact absurd h (by simp)
    rcases h2 : exceptMapM EncodedRecipient.tryFromDecodedRec t with e2 | est <;>
      rw [h2] at h
    · exact absurd h (by simp)
    simp only [pure, Except.pure, Except.ok.injEq] at h
    subst h
    simp [tryFromDecodedRec_inv d es1 h1, ihl est h2]

theorem optionMapM_sig_inv (o : Option (List DecodedSignature))
    (p : Option (List EncodedSignature))
    (h : optionMapM EncodedSignature.tryFromDecodedSig o = .ok p) :
    p.map (List.map DecodedSignature.fromEncodedSig) = o := by
  cases o with
  | none =>
    simp only [optionMapM, Except.ok.injEq] at h
    subst h
    rfl
  | some l =>
    simp only [optionMapM] at h
    rcases hm : exceptMapM EncodedSignature.tryFromDecodedSig l with e1 | es <;>
      rw [hm] at h <;>
      simp only [Except.map, Except.ok.injEq] at h
    · exact absurd h (by simp)
    · subst h
      simp [exceptMapM_sig_inv l es hm]

theorem optionMapM_rec_inv (o : Option (List DecodedRecipient))
    (p : Option (List EncodedRecipient))
    (h : optionMapM EncodedRecipient.tryFromDecodedRec o = .ok p) :
    p.map (List.map DecodedRecipient.fromEncodedRec) = o := by
  cases o with
  | none =>
    simp only [optionMapM, Except.ok.injEq] at h
    subst h
    rfl
  | some l =>
    simp only [optionMapM] at h
    rcases hm : exceptMapM EncodedRecipient.tryFromDecodedRec l with e1 | es <;>
      rw [hm] at h <;>
      simp only [Except.map, Except.ok.injEq] at h
    · exact absurd h (by simp)
    · subst h
      simp [exceptMapM_rec_inv l es hm]

theorem tryFromDecoded_parts (d : Decoded) (e : Encoded)
    (h : Encoded.tryFromDecoded d = .ok e) :
    fromBase64Opt d.payload = .ok e.payload ∧
    (∀ l, Decoded.fromEncodedWith e l = { d with link := l }) := by
  simp only [Encoded.tryFromDecoded, bind, Except.bind] at h
  rcases h1 : fromBase64Opt d.payload with e1 | payload <;> rw [h1] at h
  · exact absurd h (by simp)
  rcases h2 : optionMapM EncodedSignature.tryFromDecodedSig d.signatures with e2 | sigs <;>
    rw [h2] at h
  · exact absurd h (by simp)
  rcases h3 : fromBase64Opt d.aad with e3 | aad <;> rw [h3] at h
  · exact absurd h (by simp)
  rcases h4 : fromBase64Opt d.ciphertext with e4 | ciph <;> rw [h4] at h
  · exact absurd h (by simp)
  rcases h5 : fromBase64Opt d.iv with e5 | iv <;> rw [h5] at h
  · exact absurd h (by simp)
  rcases h6 : fromBase64Opt d.protected_ with e6 | prot <;> rw [h6] at h
  · exact absurd h (by simp)
  rcases h7 : optionMapM EncodedRecipient.tryFromDecodedRec d.recipients with e7 | recs <;>
    rw [h7] at h
  · exact absurd h (by simp)
  rcases h8 : fromBase64Opt d.tag with e8 | tag <;> rw [h8] at h
  · exact absurd h (by simp)
  simp only [pure, Except.pure, Except.ok.injEq] at h
  subst h
  refine ⟨?_, fun l => ?_⟩
  · rfl
  simp only [Decoded.fromEncodedWith]
  rw [fromBase64Opt_inv _ _ h1, optionMapM_sig_inv _ _ h2, fromBase64Opt_inv _ _ h3,
    fromBase64Opt_inv _ _ h4, fromBase64Opt_inv _ _ h5, fromBase64Opt_inv _ _ h6,
    optionMapM_rec_inv _ _ h7, fromBase64Opt_inv _ _ h8]

theorem fromDecodedSig_fromSignature (s : Signature) :
    Signature.fromDecodedSig (DecodedSignature.fromSignature s) = s := by
  rcases s with ⟨h, p, sg⟩
  cases h <;> rfl

theorem fromDecodedRec_fromRecipient (x : Recipient) :
    Recipient.fromDecodedRec (DecodedRecipient.fromRecipient x) = x := by
  rcases x with ⟨ek, h⟩
  cases h <;> rfl

theorem map_sig_id (l : List Signature) :
    (l.map DecodedSignature.fromSignature).map Signature.fromDecodedSig = l := by
  induction l with
  | nil => rfl
  | cons a t ihq => simp [fromDecodedSig_fromSignature, ihq]

theorem map_rec_id (l : List Recipient) :
    (l.map DecodedRecipient.fromRecipient).map Recipient.fromDecodedRec = l := by
  induction l with
  | nil => rfl
  | cons a t ihq => simp [fromDecodedRec_fromRecipient, ihq]

theorem tryFromDecoded_fromJws (jws : JsonWebSignature) :
    Jose.tryFromDecoded (Decoded.fromJws jws) = .ok (.signature jws) := by
  have hsig : ((Decoded.fromJws jws).signatures.getD []).map Signature.fromDecodedSig =
      jws.signatures := by
    rcases hs : jws.signatures with _ | ⟨s, t⟩
    · simp [Decoded.fromJws, hs]
    · simp only [Decoded.fromJws, hs, List.isEmpty_cons]
      simp only [Bool.false_eq_true, if_false, Option.getD_some]
      rw [← hs, map_sig_id]
  simp only [Jose.tryFromDecoded, Decoded.hasJwsFields, Decoded.hasJweFields,
    JsonWebSignature.tryFromDecoded, Decoded.fromJws]
  simp only [Option.isSome_some, Option.isSome_none]
  simp only [Bool.true_or, Bool.or_false, Bool.false_or, Bool.and_false, Bool.or_self]
  simp only [Bool.true_and, Bool.false_and, if_false, Bool.false_eq_true, if_true]
  simp only [Decoded.fromJws] at hsig
  rw [hsig]
  rfl

theorem tryFromDecoded_fromJwe (jwe : JsonWebEncryption) :
    Jose.tryFromDecoded (Decoded.fromJwe jwe) = .ok (.encryption jwe) := by
  have hrec : ((Decoded.fromJwe jwe).recipients.getD []).map Recipient.fromDecodedRec =
      jwe.recipients := by
    rcases hr : jwe.recipients with _ | ⟨x, t⟩
    · simp [Decoded.fromJwe, hr]
    · simp only [Decoded.fromJwe, hr, List.isEmpty_cons]
      simp only [Bool.false_eq_true, if_false, Option.getD_some]
      rw [← hr, map_rec_id]
  have hunp : (Decoded.fromJwe jwe).unprotected.getD [] = jwe.unprotected := by
    rcases hu : jwe.unprotected with _ | ⟨kv, t⟩
    · simp [Decoded.fromJwe, hu]
    · simp [Decoded.fromJwe, hu]
  simp only [Jose.tryFromDecoded, Decoded.hasJwsFields, Decoded.hasJweFields,
    JsonWebEncryption.tryFromDecoded, Decoded.fromJwe]
  simp only [Option.isSome_some, Option.isSome_none]
  simp only [Bool.false_or, Bool.or_false, Bool.false_and, Bool.false_eq_true, if_false]
  simp only [Decoded.fromJwe] at hrec hunp
  rw [hrec, hunp]
  rfl

/-- The JWS link invariant of the data model (spec §3): `link` is the content
identifier of the exact bytes the payload decodes to. -/
def Jose.linkOkB : Jose → Bool
  | .signature jws =>
    match base64urlDecode jws.payload with
    | some pb => decide (cidFromBytes pb = some jws.link)
    | none => false
  | .encryption _ => true

/-- Valid domain value: the link invariant holds, the base64url fields all
decode (so the conversion layer succeeds) and the resulting wire value is
representable in canonical CBOR. -/
def Jose.validB (v : Jose) : Bool :=
  v.linkOkB &&
  (match Encoded.tryFromDecoded (Decoded.fromJose v) with
   | .ok e => e.wfB
   | .error _ => false)

/-- C1: for every valid `Jose` value (in particular a `JsonWebSignature` whose
`link` is the content identifier of the bytes its payload decodes to),
encoding with the DAG-JOSE binary codec and decoding the resulting bytes
returns the same value. -/
theorem dagjose_roundtrip_domain (v : Jose) (h : Jose.validB v = true) :
    ∃ bs, DagJoseCodec.encodeJose v = .ok bs ∧
      DagJoseCodec.decodeJose bs = .ok v := by
  simp only [Jose.validB, Bool.and_eq_true] at h
  obtain ⟨hlink, henc⟩ := h
  rcases he : Encoded.tryFromDecoded (Decoded.fromJose v) with er | e
  · rw [he] at henc
    exact absurd henc (by simp)
  rw [he] at henc
  refine ⟨Ipld.enc e.toIpld, ?_, ?_⟩
  · simp [DagJoseCodec.encodeJose, he, Except.map]
  have htop : decodeIpldTop (Ipld.enc e.toIpld) = some e.toIpld :=
    decodeIpldTop_enc _ (Encoded.wf_toIpld e henc)
  have hfrom := Encoded.fromIpld_toIpld e
  obtain ⟨hpay, hwith⟩ := tryFromDecoded_parts _ e he
  cases v with
  | signature jws =>
    simp only [Jose.linkOkB] at hlink
    rcases hb : base64urlDecode jws.payload with _ | pb
    · rw [hb] at hlink
      exact absurd hlink (by simp)
    rw [hb] at hlink
    have hcid : cidFromBytes pb = some jws.link := by simpa using hlink
    have hp2 : e.payload = some pb := by
      have h0 := hpay
      simp only [Decoded.fromJose, Decoded.fromJws, fromBase64Opt, fromBase64, hb,
        Except.map, Except.ok.injEq] at h0
      exact h0.symm
    have hfe : Decoded.fromEncoded e = some (Decoded.fromEncodedWith e (some jws.link)) := by
      simp [Decoded.fromEncoded, hp2, hcid]
    have hW : Decoded.fromEncodedWith e (some jws.link) = Decoded.fromJws jws := by
      rw [hwith (some jws.link)]
      rfl
    have hJ := tryFromDecoded_fromJws jws
    simp [DagJoseCodec.decodeJose, htop, hfrom, hfe, hW, hJ]
  | encryption jwe =>
    have hp2 : e.payload = none := by
      have h0 := hpay
      simp only [Decoded.fromJose, Decoded.fromJwe, fromBase64Opt, Except.ok.injEq] at h0
      exact h0.symm
    have hfe : Decoded.fromEncoded e = some (Decoded.fromEncodedWith e none) := by
      simp [Decoded.fromEncoded, hp2]
    have hW : Decoded.fromEncodedWith e none = Decoded.fromJwe jwe := by
      rw [hwith none]
      rfl
    have hJ := tryFromDecoded_fromJwe jwe
    simp [DagJoseCodec.decodeJose, htop, hfrom, hfe, hW, hJ]

/-- Concrete witness value: a JWS whose payload is the base64url encoding
`AVUSAqq7` of the CIDv1 bytes `01 55 12 02 aa bb`, with one signature carrying
`protected` = base64url `AQI` and `signature` = base64url `BQ`. -/
def jwsW : JsonWebSignature :=
  { link := ⟨1, 85, 18, 2, [170, 187]⟩,
    payload := [65, 86, 85, 83, 65, 113, 113, 55],
    signatures := [{ header := [], protected_ := some [65, 81, 73],
                     signature := [66, 81] }] }

/-- Witness for C1 at a concrete valid JWS. -/
theorem dagjose_roundtrip_domain_witness :
    Jose.validB (.signature jwsW) = true ∧
    ∃ bs, DagJoseCodec.encodeJose (.signature jwsW) = .ok bs ∧
      DagJoseCodec.decodeJose bs = .ok (.signature jwsW) :=
  ⟨by decide, dagjose_roundtrip_domain (.signature jwsW) (by decide)⟩

/-- C10: encoding through the `Jose`-level entry point agrees byte for byte
with the variant-specialized entry points, for both variants. -/
theorem encode_jose_matches_specialized :
    (∀ jws : JsonWebSignature,
      DagJoseCodec.encodeJose (.signature jws) = DagJoseCodec.encodeJws jws) ∧
    (∀ jwe : JsonWebEncryption,
      DagJoseCodec.encodeJose (.encryption jwe) = DagJoseCodec.encodeJwe jwe) :=
  ⟨fun _ => rfl, fun _ => rfl⟩

/-- Wire value whose payload is a valid CID encoding. -/
def encGood : Encoded :=
  { payload := some [1, 85, 18, 2, 170, 187], signatures := none, iv := none,
    aad := none, tag := none, protected_ := none, ciphertext := none,
    recipients := none, unprotected := none }

/-- Wire value whose payload byte `0x00` is not a valid CID encoding. -/
def encBad : Encoded :=
  { payload := some [0], signatures := none, iv := none,
    aad := none, tag := none, protected_ := none, ciphertext := none,
    recipients := none, unprotected := none }

/-- The domain value `decodeJose` recovers from `encGood`. -/
def jwsGoodOut : JsonWebSignature :=
  { link := ⟨1, 85, 18, 2, [170, 187]⟩,
    payload := [65, 86, 85, 83, 65, 113, 113, 55], signatures := [] }

/-- C2: on a wire JWS with a valid payload identifier, decode succeeds and the
link equals the identifier parsed from the payload bytes; on a payload that is
not a valid identifier encoding, decode PANICS (the `expect("TODO")` in
`From<Encoded> for Decoded`, `src/codec.rs` line 198) instead of returning the
typed `Error::InvalidCid` the spec promises. -/
theorem decode_link_derivation_and_panic :
    DagJoseCodec.decodeJose (Ipld.enc encGood.toIpld) = .ok (.signature jwsGoodOut) ∧
    DagJoseCodec.decodeJose (Ipld.enc encBad.toIpld) = .panic :=
  ⟨rfl, rfl⟩

theorem getOpt_isSome {α : Type} (m : IMap) (k : Str) (f : Ipld → Option α)
    (o : Option α) (h : getOpt m k f = some o) :
    o.isSome = (lookupKey m k).isSome := by
  unfold getOpt at h
  rcases hl : lookupKey m k with _ | v <;> rw [hl] at h
  · simp only [Option.some.injEq] at h
    subst h
    rfl
  · have h2 : (f v).map some = some o := h
    rcases hf : f v with _ | b <;> rw [hf] at h2
    · exact absurd h2 (by simp)
    · simp only [Option.map_some', Option.some.injEq] at h2
      subst h2
      rfl

theorem fromIpld_isSome (m : IMap) (e : Encoded)
    (h : Encoded.fromIpld (.map m) = some e) :
    e.payload.isSome = (lookupKey m kPayload).isSome ∧
    e.signatures.isSome = (lookupKey m kSignatures).isSome ∧
    e.iv.isSome = (lookupKey m kIv).isSome ∧
    e.aad.isSome = (lookupKey m kAad).isSome ∧
    e.tag.isSome = (lookupKey m kTag).isSome ∧
    e.protected_.isSome = (lookupKey m kProtected).isSome ∧
    e.ciphertext.isSome = (lookupKey m kCiphertext).isSome ∧
    e.recipients.isSome = (lookupKey m kRecipients).isSome ∧
    e.unprotected.isSome = (lookupKey m kUnprotected).isSome := by
  simp only [Encoded.fromIpld, Ipld.asMap, bind] at h
  obtain ⟨m2, hm2, h⟩ := Option.bind_eq_some.mp h
  have hme : m = m2 := by simpa using hm2
  subst hme
  obtain ⟨o1, g1, h⟩ := Option.bind_eq_some.mp h
  obtain ⟨o2, g2, h⟩ := Option.bind_eq_some.mp h
  obtain ⟨o3, g3, h⟩ := Option.bind_eq_some.mp h
  obtain ⟨o4, g4, h⟩ := Option.bind_eq_some.mp h
  obtain ⟨o5, g5, h⟩ := Option.bind_eq_some.mp h
  obtain ⟨o6, g6, h⟩ := Option.bind_eq_some.mp h
  obtain ⟨o7, g7, h⟩ := Option.bind_eq_some.mp h
  obtain ⟨o8, g8, h⟩ := Option.bind_eq_some.mp h
  obtain ⟨o9, g9, h⟩ := Option.bind_eq_some.mp h
  simp only [pure, Option.some.injEq] at h
  subst h
  exact ⟨getOpt_isSome _ _ _ _ g1, getOpt_isSome _ _ _ _ g2, getOpt_isSome _ _ _ _ g3,
    getOpt_isSome _ _ _ _ g4, getOpt_isSome _ _ _ _ g5, getOpt_isSome _ _ _ _ g6,
    getOpt_isSome _ _ _ _ g7, getOpt_isSome _ _ _ _ g8, getOpt_isSome _ _ _ _ g9⟩

theorem fromEncoded_shape (e : Encoded) (d : Decoded)
    (h : Decoded.fromEncoded e = some d) :
    ∃ l, d = Decoded.fromEncodedWith e l := by
  unfold Decoded.fromEncoded at h
  rcases hp : e.payload with _ | p <;> rw [hp] at h
  · simp only [Option.some.injEq] at h
    exact ⟨none, h.symm⟩
  · have h2 : (match cidFromBytes p with
        | some c => some (Decoded.fromEncodedWith e (some c))
        | none => none) = some d := h
    rcases hc : cidFromBytes p with _ | c <;> rw [hc] at h2
    · exact absurd h2 (by simp)
    · simp only [Option.some.injEq] at h2
      exact ⟨some c, h2.symm⟩

theorem fromEncodedWith_isSome (e : Encoded) (l : Option Cid) :
    (Decoded.fromEncodedWith e l).payload.isSome = e.payload.isSome ∧
    (Decoded.fromEncodedWith e l).signatures.isSome = e.signatures.isSome ∧
    (Decoded.fromEncodedWith e l).aad.isSome = e.aad.isSome ∧
    (Decoded.fromEncodedWith e l).ciphertext.isSome = e.ciphertext.isSome ∧
    (Decoded.fromEncodedWith e l).iv.isSome = e.iv.isSome ∧
    (Decoded.fromEncodedWith e l).protected_.isSome = e.protected_.isSome ∧
    (Decoded.fromEncodedWith e l).recipients.isSome = e.recipients.isSome ∧
    (Decoded.fromEncodedWith e l).tag.isSome = e.tag.isSome ∧
    (Decoded.fromEncodedWith e l).unprotected.isSome = e.unprotected.isSome := by
  simp [Decoded.fromEncodedWith, toBase64Opt]

/-- C3: a canonical-tree map carrying keys from both field groups never
decodes to a `Jose` value, and neither does one carrying keys of neither
group. -/
theorem decode_variant_exclusivity (bs : List Nat) (m : IMap)
    (h : decodeIpldTop bs = some (.map m)) :
    (((lookupKey m kPayload).isSome || (lookupKey m kSignatures).isSome) = true →
     ((lookupKey m kIv).isSome || (lookupKey m kAad).isSome ||
      (lookupKey m kTag).isSome || (lookupKey m kProtected).isSome ||
      (lookupKey m kCiphertext).isSome || (lookupKey m kRecipients).isSome ||
      (lookupKey m kUnprotected).isSome) = true →
     (DagJoseCodec.decodeJose bs).isOk = false) ∧
    (((lookupKey m kPayload).isSome || (lookupKey m kSignatures).isSome ||
      (lookupKey m kIv).isSome || (lookupKey m kAad).isSome ||
      (lookupKey m kTag).isSome || (lookupKey m kProtected).isSome ||
      (lookupKey m kCiphertext).isSome || (lookupKey m kRecipients).isSome ||
      (lookupKey m kUnprotected).isSome) = false →
     (DagJoseCodec.decodeJose bs).isOk = false) := by
  constructor
  · intro hjws hjwe
    rcases hf : Encoded.fromIpld (.map m) with _ | e
    · simp [DagJoseCodec.decodeJose, h, hf, Outcome.isOk]
    obtain ⟨p1, p2, p3, p4, p5, p6, p7, p8, p9⟩ := fromIpld_isSome m e hf
    rcases hd : Decoded.fromEncoded e with _ | d
    · simp [DagJoseCodec.decodeJose, h, hf, hd, Outcome.isOk]
    obtain ⟨l, rfl⟩ := fromEncoded_shape e d hd
    obtain ⟨q1, q2, q3, q4, q5, q6, q7, q8, q9⟩ := fromEncodedWith_isSome e l
    have hw1 : (Decoded.fromEncodedWith e l).hasJwsFields = true := by
      unfold Decoded.hasJwsFields
      rw [q1, q2, p1, p2]
      exact hjws
    have hw2 : (Decoded.fromEncodedWith e l).hasJweFields = true := by
      unfold Decoded.hasJweFields
      rw [q3, q4, q5, q6, q7, q8, q9, p3, p4, p5, p6, p7, p8, p9]
      simp only [Bool.or_eq_true] at hjwe ⊢
      tauto
    simp [DagJoseCodec.decodeJose, h, hf, hd, Jose.tryFromDecoded, hw1, hw2,
      Outcome.isOk]
  · intro hno
    rcases hf : Encoded.fromIpld (.map m) with _ | e
    · simp [DagJoseCodec.decodeJose, h, hf, Outcome.isOk]
    obtain ⟨p1, p2, p3, p4, p5, p6, p7, p8, p9⟩ := fromIpld_isSome m e hf
    rcases hd : Decoded.fromEncoded e with _ | d
    · simp [DagJoseCodec.decodeJose, h, hf, hd, Outcome.isOk]
    obtain ⟨l, rfl⟩ := fromEncoded_shape e d hd
    obtain ⟨q1, q2, q3, q4, q5, q6, q7, q8, q9⟩ := fromEncodedWith_isSome e l
    simp only [Bool.or_eq_false_iff] at hno
    have hw1 : (Decoded.fromEncodedWith e l).hasJwsFields = false := by
      unfold Decoded.hasJwsFields
      rw [q1, q2, p1, p2]
      simp [hno.1.1.1.1.1.1.1.1, hno.1.1.1.1.1.1.1.2]
    have hpnone : (Decoded.fromEncodedWith e l).payload.isSome = false := by
      rw [q1, p1]
      exact hno.1.1.1.1.1.1.1.1
    have hcnone : (Decoded.fromEncodedWith e l).ciphertext = none := by
      have hq := q4.trans p7
      rcases hcc : (Decoded.fromEncodedWith e l).ciphertext with _ | c2
      · rfl
      · rw [hcc] at hq
        rw [hno.1.1.2] at hq
        exact absurd hq (by simp)
    simp [DagJoseCodec.decodeJose, h, hf, hd, Jose.tryFromDecoded, hw1, hpnone,
      JsonWebEncryption.tryFromDecoded, hcnone, Except.map, Outcome.isOk]

/-- Bytewise lexicographic order on keys. -/
def keyLtB : Str → Str → Bool
  | [], [] => false
  | [], _ :: _ => true
  | _ :: _, [] => false
  | a :: as2, b :: bs2 => if a < b then true else if a = b then keyLtB as2 bs2 else false

/-- Canonical DAG-CBOR key order (spec §4.3): byte length first, then
lexicographically. -/
def canonLt (a b : Str) : Prop :=
  a.length < b.length ∨ (a.length = b.length ∧ keyLtB a b = true)

instance : DecidableRel canonLt := fun a b =>
  decidable_of_iff (a.length < b.length ∨ (a.length = b.length ∧ keyLtB a b = true)) Iff.rfl

theorem tryFromDecoded_fields (d : Decoded) (e : Encoded)
    (h : Encoded.tryFromDecoded d = .ok e) :
    fromBase64Opt d.payload = .ok e.payload ∧
    optionMapM EncodedSignature.tryFromDecodedSig d.signatures = .ok e.signatures ∧
    fromBase64Opt d.aad = .ok e.aad ∧
    fromBase64Opt d.ciphertext = .ok e.ciphertext ∧
    fromBase64Opt d.iv = .ok e.iv ∧
    fromBase64Opt d.protected_ = .ok e.protected_ ∧
    optionMapM EncodedRecipient.tryFromDecodedRec d.recipients = .ok e.recipients ∧
    fromBase64Opt d.tag = .ok e.tag ∧
    e.unprotected = d.unprotected := by
  simp only [Encoded.tryFromDecoded, bind, Except.bind] at h
  rcases h1 : fromBase64Opt d.payload with e1 | payload <;> rw [h1] at h
  · exact absurd h (by simp)
  rcases h2 : optionMapM EncodedSignature.tryFromDecodedSig d.signatures with e2 | sigs <;>
    rw [h2] at h
  · exact absurd h (by simp)
  rcases h3 : fromBase64Opt d.aad with e3 | aad <;> rw [h3] at h
  · exact absurd h (by simp)
  rcases h4 : fromBase64Opt d.ciphertext with e4 | ciph <;> rw [h4] at h
  · exact absurd h (by simp)
  rcases h5 : fromBase64Opt d.iv with e5 | iv <;> rw [h5] at h
  · exact absurd h (by simp)
  rcases h6 : fromBase64Opt d.protected_ with e6 | prot <;> rw [h6] at h
  · exact absurd h (by simp)
  rcases h7 : optionMapM EncodedRecipient.tryFromDecodedRec d.recipients with e7 | recs <;>
    rw [h7] at h
  · exact absurd h (by simp)
  rcases h8 : fromBase64Opt d.tag with e8 | tag <;> rw [h8] at h
  · exact absurd h (by simp)
  simp only [pure, Except.pure, Except.ok.injEq] at h
  subst h
  exact ⟨rfl, rfl, rfl, rfl, rfl, rfl, rfl, rfl, rfl⟩

theorem fromBase64Opt_some (s : Str) (o : Option (List Nat))
    (h : fromBase64Opt (some s) = .ok o) : ∃ b, o = some b := by
  simp only [fromBase64Opt] at h
  rcases hb : fromBase64 s with er | b <;> rw [hb] at h <;>
    simp only [Except.map, Except.ok.injEq] at h
  · exact absurd h (by simp)
  · exact ⟨b, h.symm⟩

theorem sigFields_canonical (s : EncodedSignature) :
    ((EncodedSignature.fields s).map Prod.fst).Pairwise canonLt := by
  rcases s with ⟨h, p, sg⟩
  cases h <;> cases p <;> simp [EncodedSignature.fields, optField] <;> decide

theorem recFields_canonical (x : EncodedRecipient) :
    ((EncodedRecipient.fields x).map Prod.fst).Pairwise canonLt := by
  rcases x with ⟨h, ek⟩
  cases h <;> cases ek <;> first
  | decide
  | (simp [EncodedRecipient.fields, optField]; decide)
  | simp [EncodedRecipient.fields, optField]

/-- C4: every struct map the binary encoder emits for a domain value has its
keys in canonical order (byte length first, then lexicographic): the top-level
map, each signature map and each recipient map; the struct declaration order
realizes this sort within each populated group. -/
theorem encoder_canonical_key_order (v : Jose) (e : Encoded)
    (h : Encoded.tryFromDecoded (Decoded.fromJose v) = .ok e) :
    ((e.fields.map Prod.fst).Pairwise canonLt) ∧
    (∀ ss, e.signatures = some ss →
      ∀ s ∈ ss, ((EncodedSignature.fields s).map Prod.fst).Pairwise canonLt) ∧
    (∀ rs, e.recipients = some rs →
      ∀ x ∈ rs, ((EncodedRecipient.fields x).map Prod.fst).Pairwise canonLt) := by
  refine ⟨?_, fun ss _ s _ => sigFields_canonical s, fun rs _ x _ => recFields_canonical x⟩
  obtain ⟨h1, h2, h3, h4, h5, h6, h7, h8, h9⟩ := tryFromDecoded_fields _ e h
  cases v with
  | signature jws =>
    simp only [Decoded.fromJose, Decoded.fromJws, fromBase64Opt, optionMapM,
      Except.ok.injEq] at h1 h2 h3 h4 h5 h6 h7 h8 h9
    obtain ⟨pb, hpb⟩ : ∃ b, e.payload = some b := by
      rcases hp2 : fromBase64 jws.payload with er | b <;> rw [hp2] at h1
      · exact absurd h1 (by simp [Except.map])
      · simp only [Except.map, Except.ok.injEq] at h1
        exact ⟨b, h1.symm⟩
    simp only [Encoded.fields, hpb, h3.symm, h4.symm, h5.symm, h6.symm, h7.symm,
      h8.symm, h9]
    rcases e.signatures with _ | ss <;> first
    | (simp [optField]; decide)
    | simp [optField]
  | encryption jwe =>
    simp only [Decoded.fromJose, Decoded.fromJwe, fromBase64Opt, optionMapM,
      Except.ok.injEq] at h1 h2 h9
    obtain ⟨cb, hcb⟩ := fromBase64Opt_some _ _ h4
    obtain ⟨ib, hib⟩ := fromBase64Opt_some _ _ h5
    obtain ⟨prb, hprb⟩ := fromBase64Opt_some _ _ h6
    obtain ⟨tb, htb⟩ := fromBase64Opt_some _ _ h8
    simp only [Encoded.fields, h1.symm, h2.symm, hcb, hib, hprb, htb]
    rcases e.aad with _ | ab <;> rcases e.recipients with _ | rb <;>
      rcases e.unprotected with _ | ub <;> simp [optField] <;> decide

/-- Concrete witness JWE: one recipient, a non-empty unprotected header. -/
def jweW : JsonWebEncryption :=
  { aad := none, ciphertext := [66, 81], iv := [66, 81], protected_ := [65, 81, 73],
    recipients := [{ encrypted_key := some [66, 81], header := [] }],
    tag := [66, 81], unprotected := [([97], Ipld.int 1)] }

/-- The wire value of `jwsW`. -/
def encJwsW : Encoded :=
  { payload := some [1, 85, 18, 2, 170, 187],
    signatures := some [{ header := none, protected_ := some [1, 2], signature := [5] }],
    iv := none, aad := none, tag := none, protected_ := none, ciphertext := none,
    recipients := none, unprotected := none }

/-- The wire value of `jweW`. -/
def encJweW : Encoded :=
  { payload := none, signatures := none, iv := some [5], aad := none, tag := some [5],
    protected_ := some [1, 2], ciphertext := some [5],
    recipients := some [{ header := none, encrypted_key := some [5] }],
    unprotected := some [([97], Ipld.int 1)] }

/-- Witness for C4 at a concrete JWS and a concrete JWE. -/
theorem encoder_canonical_key_order_witness :
    ((encJwsW.fields.map Prod.fst).Pairwise canonLt) ∧
    ((encJweW.fields.map Prod.fst).Pairwise canonLt) ∧
    ((EncodedSignature.fields
        { header := none, protected_ := some [1, 2], signature := [5] }).map
        Prod.fst).Pairwise canonLt ∧
    ((EncodedRecipient.fields
        { header := none, encrypted_key := some [5] }).map Prod.fst).Pairwise canonLt :=
  ⟨(encoder_canonical_key_order (.signature jwsW) encJwsW rfl).1,
   (encoder_canonical_key_order (.encryption jweW) encJweW rfl).1,
   (encoder_canonical_key_order (.signature jwsW) encJwsW rfl).2.1 _ rfl _ (by simp),
   (encoder_canonical_key_order (.encryption jweW) encJweW rfl).2.2 _ rfl _ (by simp)⟩

/-- C5: a JWE with empty `recipients` and empty `unprotected` map encodes to a
wire map without those keys, and a signature with an empty header map encodes
without a `header` key. -/
theorem encode_minimality_omits_empty :
    (∀ (jwe : JsonWebEncryption) (e : Encoded), jwe.recipients = [] →
      jwe.unprotected = [] →
      Encoded.tryFromDecoded (Decoded.fromJwe jwe) = .ok e →
      kRecipients ∉ e.fields.map Prod.fst ∧ kUnprotected ∉ e.fields.map Prod.fst) ∧
    (∀ (s : Signature) (es : EncodedSignature), s.header = [] →
      EncodedSignature.tryFromDecodedSig (DecodedSignature.fromSignature s) = .ok es →
      kHeader ∉ (EncodedSignature.fields es).map Prod.fst) := by
  constructor
  · intro jwe e hr hu h
    obtain ⟨h1, h2, h3, h4, h5, h6, h7, h8, h9⟩ := tryFromDecoded_fields _ e h
    simp only [Decoded.fromJwe, hr, hu, List.isEmpty_nil, if_true, optionMapM,
      fromBase64Opt, Except.ok.injEq] at h1 h2 h7 h9
    obtain ⟨cb, hcb⟩ := fromBase64Opt_some _ _ h4
    obtain ⟨ib, hib⟩ := fromBase64Opt_some _ _ h5
    obtain ⟨prb, hprb⟩ := fromBase64Opt_some _ _ h6
    obtain ⟨tb, htb⟩ := fromBase64Opt_some _ _ h8
    simp only [Encoded.fields, h1.symm, h2.symm, h7.symm, h9, hcb, hib, hprb, htb]
    rcases e.aad with _ | ab <;> simp [optField] <;> decide
  · intro s es hh h
    simp only [EncodedSignature.tryFromDecodedSig, DecodedSignature.fromSignature, hh,
      List.isEmpty_nil, if_true, bind, Except.bind] at h
    rcases hp : fromBase64Opt s.protected_ with er | p <;> rw [hp] at h
    · exact absurd h (by simp)
    rcases hs : fromBase64 s.signature with er | sg <;> rw [hs] at h
    · exact absurd h (by simp)
    simp only [pure, Except.pure, Except.ok.injEq] at h
    subst h
    rcases p with _ | pb <;> simp [EncodedSignature.fields, optField] <;> decide

/-- Witness JWE for C5: empty recipients and unprotected map. -/
def jweMin : JsonWebEncryption :=
  { aad := none, ciphertext := [66, 81], iv := [66, 81], protected_ := [65, 81, 73],
    recipients := [], tag := [66, 81], unprotected := [] }

/-- The wire value of `jweMin`. -/
def encJweMin : Encoded :=
  { payload := none, signatures := none, iv := some [5], aad := none, tag := some [5],
    protected_ := some [1, 2], ciphertext := some [5], recipients := none,
    unprotected := none }

/-- Witness for C5 at a concrete minimal JWE and a header-less signature. -/
theorem encode_minimality_omits_empty_witness :
    (kRecipients ∉ encJweMin.fields.map Prod.fst ∧
     kUnprotected ∉ encJweMin.fields.map Prod.fst) ∧
    kHeader ∉ (EncodedSignature.fields
      { header := none, protected_ := some [1, 2], signature := [5] }).map Prod.fst :=
  ⟨encode_minimality_omits_empty.1 jweMin encJweMin rfl rfl rfl,
   encode_minimality_omits_empty.2
     { header := [], protected_ := some [65, 81, 73], signature := [66, 81] } _ rfl rfl⟩


theorem keyLtB_irrefl : ∀ a : Str, keyLtB a a = false
  | [] => rfl
  | x :: t => by simp [keyLtB, keyLtB_irrefl t]

theorem keyLtB_asymm : ∀ a b : Str, keyLtB a b = true → keyLtB b a = false
  | [], [], h => by simp [keyLtB] at h
  | [], _ :: _, _ => rfl
  | _ :: _, [], h => by simp [keyLtB] at h
  | x :: xs, y :: ys, h => by
    simp only [keyLtB] at h ⊢
    by_cases hlt : x < y
    · have h1 : ¬ y < x := by omega
      have h2 : y ≠ x := by omega
      simp [h1, h2]
    · by_cases heq : x = y
      · subst heq
        have h1 : ¬ x < x := by omega
        simp only [if_neg h1, if_pos rfl] at h ⊢
        exact keyLtB_asymm xs ys h
      · simp [hlt, heq] at h

theorem keyLtB_total : ∀ a b : Str, keyLtB a b = false → keyLtB b a = false → a = b
  | [], [], _, _ => rfl
  | [], _ :: _, h, _ => by simp [keyLtB] at h
  | _ :: _, [], _, h => by simp [keyLtB] at h
  | x :: xs, y :: ys, h1, h2 => by
    simp only [keyLtB] at h1 h2
    by_cases hlt : x < y
    · simp [hlt] at h1
    · by_cases hgt : y < x
      · simp [hgt] at h2
      · have heq : x = y := by omega
        subst heq
        have hn : ¬ x < x := by omega
        simp only [if_neg hn, if_pos rfl] at h1 h2
        rw [keyLtB_total xs ys h1 h2]

theorem keyLtB_trans : ∀ a b c : Str, keyLtB a b = true → keyLtB b c = true →
    keyLtB a c = true
  | [], [], _, h, _ => by simp [keyLtB] at h
  | [], _ :: _, [], _, h => by simp [keyLtB] at h
  | [], _ :: _, _ :: _, _, _ => rfl
  | _ :: _, [], _, h, _ => by simp [keyLtB] at h
  | _ :: _, _ :: _, [], _, h => by simp [keyLtB] at h
  | x :: xs, y :: ys, z :: zs, h1, h2 => by
    simp only [keyLtB] at h1 h2 ⊢
    by_cases h1l : x < y
    · by_cases h2l : y < z
      · have hxz : x < z := by omega
        simp [hxz]
      · by_cases h2e : y = z
        · subst h2e
          simp [h1l]
        · simp [h2l, h2e] at h2
    · by_cases h1e : x = y
      · subst h1e
        simp only [if_neg h1l, if_pos rfl] at h1
        by_cases h2l : x < z
        · simp [h2l]
        · by_cases h2e : x = z
          · subst h2e
            have hn : ¬ x < x := by omega
            simp only [if_neg hn, if_pos rfl] at h2 ⊢
            exact keyLtB_trans xs ys zs h1 h2
          · simp [h2l, h2e] at h2
      · simp [h1l, h1e] at h1

theorem keyLtB_of_ne (a b : Str) (h : keyLtB a b = false) (hne : a ≠ b) :
    keyLtB b a = true := by
  cases hba : keyLtB b a
  · exact absurd (keyLtB_total a b h hba) hne
  · rfl

/-- `BTreeMap::insert` on the sorted-association-list model of
`BTreeMap<String, Ipld>` (codec.rs line 55): keys are kept in strictly
increasing byte-lexicographic order; inserting an existing key replaces
its value. -/
def btreeInsert (k : Str) (v : Ipld) : IMap → IMap
  | [] => [(k, v)]
  | (k2, v2) :: t =>
    if keyLtB k k2 then (k, v) :: (k2, v2) :: t
    else if k = k2 then (k, v) :: t
    else (k2, v2) :: btreeInsert k v t

/-- Building a `BTreeMap<String, Ipld>` by inserting a sequence of entries
in order, starting from the empty map. -/
def btreeOfList (l : List (Str × Ipld)) : IMap :=
  l.foldl (fun m kv => btreeInsert kv.1 kv.2 m) []

theorem btreeInsert_comm (k1 k2 : Str) (v1 v2 : Ipld) (hne : k1 ≠ k2) :
    ∀ m : IMap, btreeInsert k1 v1 (btreeInsert k2 v2 m) =
      btreeInsert k2 v2 (btreeInsert k1 v1 m) := by
  have hne2 : k2 ≠ k1 := Ne.symm hne
  intro m
  induction m with
  | nil =>
    by_cases h12 : keyLtB k1 k2 = true
    · have h21 : keyLtB k2 k1 = false := keyLtB_asymm _ _ h12
      simp [btreeInsert, h12, h21, hne2]
    · have h12f : keyLtB k1 k2 = false := by simpa using h12
      have h21 : keyLtB k2 k1 = true := keyLtB_of_ne _ _ h12f hne
      simp [btreeInsert, h12f, h21, hne]
  | cons kv t ih =>
    obtain ⟨k3, v3⟩ := kv
    by_cases h23 : keyLtB k2 k3 = true
    · by_cases h13 : keyLtB k1 k3 = true
      · by_cases h12 : keyLtB k1 k2 = true
        · have h21 : keyLtB k2 k1 = false := keyLtB_asymm _ _ h12
          simp [btreeInsert, h23, h13, h12, h21, hne, hne2]
        · have h12f : keyLtB k1 k2 = false := by simpa using h12
          have h21 : keyLtB k2 k1 = true := keyLtB_of_ne _ _ h12f hne
          simp [btreeInsert, h23, h13, h12f, h21, hne, hne2]
      · by_cases he13 : k1 = k3
        · subst he13
          have h12f : keyLtB k1 k2 = false := keyLtB_asymm _ _ h23
          have h11 : keyLtB k1 k1 = false := keyLtB_irrefl k1
          simp [btreeInsert, h23, h12f, hne, hne2, h11]
        · have h13f : keyLtB k1 k3 = false := by simpa using h13
          have h31 : keyLtB k3 k1 = true := keyLtB_of_ne _ _ h13f he13
          have h21 : keyLtB k2 k1 = true := keyLtB_trans _ _ _ h23 h31
          have h12f : keyLtB k1 k2 = false := keyLtB_asymm _ _ h21
          simp [btreeInsert, h23, h13f, he13, h12f, hne, hne2]
    · have h23f : keyLtB k2 k3 = false := by simpa using h23
      by_cases he23 : k2 = k3
      · subst he23
        have h22 : keyLtB k2 k2 = false := keyLtB_irrefl k2
        by_cases h12 : keyLtB k1 k2 = true
        · have h21 : keyLtB k2 k1 = false := keyLtB_asymm _ _ h12
          simp [btreeInsert, h22, h12, h21, hne, hne2]
        · have h12f : keyLtB k1 k2 = false := by simpa using h12
          simp [btreeInsert, h22, h12f, hne, hne2]
      · have h32 : keyLtB k3 k2 = true := keyLtB_of_ne _ _ h23f he23
        by_cases h13 : keyLtB k1 k3 = true
        · have h12 : keyLtB k1 k2 = true := keyLtB_trans _ _ _ h13 h32
          have h21 : keyLtB k2 k1 = false := keyLtB_asymm _ _ h12
          simp [btreeInsert, h23f, he23, h13, h12, h21, hne, hne2]
        · by_cases he13 : k1 = k3
          · subst he13
            have h11 : keyLtB k1 k1 = false := keyLtB_irrefl k1
            simp [btreeInsert, h23f, h11, hne2]
          · have h13f : keyLtB k1 k3 = false := by simpa using h13
            simp [btreeInsert, h23f, he23, h13f, he13, ih]

theorem btreeOfList_perm (l1 l2 : List (Str × Ipld)) (hp : l1.Perm l2)
    (hnd : (l1.map Prod.fst).Nodup) : btreeOfList l1 = btreeOfList l2 := by
  refine hp.foldl_eq' ?_ []
  intro x hx y hy z
  by_cases hk : x.1 = y.1
  · have hxy : x = y := List.inj_on_of_nodup_map hnd hx hy hk
    subst hxy
    rfl
  · exact btreeInsert_comm y.1 x.1 y.2 x.2 (Ne.symm hk) z

/-- C6: encoding is a deterministic function of the domain value; in
particular, building the JWE unprotected-header `BTreeMap` from the same
set of entries inserted in any two orders yields byte-identical encoder
output. -/
theorem encode_deterministic_unprotected_order
    (jwe : JsonWebEncryption) (l1 l2 : List (Str × Ipld))
    (hp : l1.Perm l2) (hnd : (l1.map Prod.fst).Nodup) :
    DagJoseCodec.encodeJose (.encryption { jwe with unprotected := btreeOfList l1 }) =
    DagJoseCodec.encodeJose (.encryption { jwe with unprotected := btreeOfList l2 }) := by
  rw [btreeOfList_perm l1 l2 hp hnd]

theorem encode_deterministic_unprotected_order_witness :
    DagJoseCodec.encodeJose (.encryption
      { jweW with unprotected := btreeOfList [([97], .int 1), ([98], .int 2)] }) =
    DagJoseCodec.encodeJose (.encryption
      { jweW with unprotected := btreeOfList [([98], .int 2), ([97], .int 1)] }) :=
  encode_deterministic_unprotected_order jweW
    [([97], .int 1), ([98], .int 2)] [([98], .int 2), ([97], .int 1)]
    (List.Perm.swap _ _ _) (by decide)

theorem decode_variant_exclusivity_witness :
    (DagJoseCodec.decodeJose (Ipld.enc
      (.map [(kPayload, .bytes [1, 85, 18, 2, 170, 187]), (kIv, .bytes [])]))).isOk = false ∧
    (DagJoseCodec.decodeJose (Ipld.enc (.map []))).isOk = false :=
  ⟨(decode_variant_exclusivity
      (Ipld.enc (.map [(kPayload, .bytes [1, 85, 18, 2, 170, 187]), (kIv, .bytes [])]))
      [(kPayload, .bytes [1, 85, 18, 2, 170, 187]), (kIv, .bytes [])] rfl).1 rfl rfl,
   (decode_variant_exclusivity (Ipld.enc (.map [])) [] rfl).2 rfl⟩

/-- Scan `n` consecutive array elements with the given element scanner,
concatenating the content identifiers found. -/
def scanListWith (scanF : List Nat → Option (List Cid × List Nat)) :
    Nat → List Nat → Option (List Cid × List Nat)
  | 0, bs => some ([], bs)
  | n + 1, bs =>
    match scanF bs with
    | none => none
    | some (ls, r) =>
      match scanListWith scanF n r with
      | none => none
      | some (ls2, r2) => some (ls ++ ls2, r2)

/-- Scan `n` consecutive map entries (text key, then value), concatenating
the content identifiers found in the values. -/
def scanEntriesWith (scanF : List Nat → Option (List Cid × List Nat)) :
    Nat → List Nat → Option (List Cid × List Nat)
  | 0, bs => some ([], bs)
  | n + 1, bs =>
    match readHead bs with
    | none => none
    | some (majk, kl, r) =>
      if majk = 3 then
        match takeExact kl r with
        | none => none
        | some (_, r2) =>
          match scanF r2 with
          | none => none
          | some (ls, r3) =>
            match scanEntriesWith scanF n r3 with
            | none => none
            | some (ls2, r4) => some (ls ++ ls2, r4)
      else none

/-- Modelled from the spec: the links operation of the canonical binary
codec (`DagCborCodec::links`, delegated to by `Links for DagJoseCodec`,
lib.rs lines 87-93) scans the undecoded bytes and collects every embedded
content identifier (tag-42 value) without materializing the domain model;
fuelled like `Ipld.dec`, one unit per nesting level. -/
def scanLinks : Nat → List Nat → Option (List Cid × List Nat)
  | 0, _ => none
  | fuel + 1, bs =>
    match readHead bs with
    | none => none
    | some (maj, arg, r) =>
      if maj = 0 then some ([], r)
      else if maj = 1 then some ([], r)
      else if maj = 2 then
        match takeExact arg r with
        | none => none
        | some (_, r2) => some ([], r2)
      else if maj = 3 then
        match takeExact arg r with
        | none => none
        | some (_, r2) => some ([], r2)
      else if maj = 4 then
        scanListWith (fun b2 => scanLinks fuel b2) arg r
      else if maj = 5 then
        scanEntriesWith (fun b2 => scanLinks fuel b2) arg r
      else if maj = 6 then
        if arg = 42 then
          match readHead r with
          | some (maj2, n, r2) =>
            if maj2 = 2 then
              match takeExact n r2 with
              | some (cb, r3) =>
                match cb with
                | 0 :: cb2 =>
                  match cidFromBytes cb2 with
                  | some c => some ([c], r3)
                  | none => none
                | _ => none
              | none => none
            else none
          | none => none
        else none
      else
        if arg = 20 then some ([], r)
        else if arg = 21 then some ([], r)
        else if arg = 22 then some ([], r)
        else none

mutual

/-- The content identifiers embedded in a tree value, in encounter order. -/
def Ipld.linksOf : Ipld → List Cid
  | .null => []
  | .bool _ => []
  | .int _ => []
  | .bytes _ => []
  | .str _ => []
  | .arr xs => Ipld.linksList xs
  | .map kvs => Ipld.linksEntries kvs
  | .link c => [c]

/-- Content identifiers embedded in a list of tree values. -/
def Ipld.linksList : List Ipld → List Cid
  | [] => []
  | x :: t => Ipld.linksOf x ++ Ipld.linksList t

/-- Content identifiers embedded in the values of a list of map entries. -/
def Ipld.linksEntries : List (Str × Ipld) → List Cid
  | [] => []
  | (_, v) :: t => Ipld.linksOf v ++ Ipld.linksEntries t

end

/-- `Links for DagJoseCodec` (lib.rs lines 87-93): extract the links of a
block without decoding it to a `Jose` value. -/
def DagJoseCodec.links (bs : List Nat) : Except Error (List Cid) :=
  match scanLinks (bs.length + 1) bs with
  | some (ls, []) => .ok ls
  | _ => .error .codec

theorem scanListWith_agree (decF : List Nat → Option (Ipld × List Nat))
    (scanF : List Nat → Option (List Cid × List Nat))
    (hag : ∀ bs v r, decF bs = some (v, r) → scanF bs = some (Ipld.linksOf v, r)) :
    ∀ n bs xs r, Ipld.decListWith decF n bs = some (xs, r) →
      scanListWith scanF n bs = some (Ipld.linksList xs, r) := by
  intro n
  induction n with
  | zero =>
    intro bs xs r h
    simp only [Ipld.decListWith, Option.some.injEq, Prod.mk.injEq] at h
    obtain ⟨h1, h2⟩ := h
    subst h1
    subst h2
    simp [scanListWith, Ipld.linksList]
  | succ n ih =>
    intro bs xs r h
    simp only [Ipld.decListWith] at h
    rcases hd : decF bs with _ | ⟨x, r1⟩
    · rw [hd] at h
      exact absurd h (by simp)
    rw [hd] at h
    have h2 : (match Ipld.decListWith decF n r1 with
        | none => none
        | some (xs2, r2) => some (x :: xs2, r2)) = some (xs, r) := h
    rcases hdl : Ipld.decListWith decF n r1 with _ | ⟨xs2, r2⟩
    · rw [hdl] at h2
      exact absurd h2 (by simp)
    rw [hdl] at h2
    have h3 : some (x :: xs2, r2) = some (xs, r) := h2
    simp only [Option.some.injEq, Prod.mk.injEq] at h3
    obtain ⟨h4, h5⟩ := h3
    subst h4
    subst h5
    simp only [scanListWith, hag bs x r1 hd, ih r1 xs2 r2 hdl]
    simp [Ipld.linksList]

theorem scanEntriesWith_agree (decF : List Nat → Option (Ipld × List Nat))
    (scanF : List Nat → Option (List Cid × List Nat))
    (hag : ∀ bs v r, decF bs = some (v, r) → scanF bs = some (Ipld.linksOf v, r)) :
    ∀ n bs kvs r, Ipld.decEntriesWith decF n bs = some (kvs, r) →
      scanEntriesWith scanF n bs = some (Ipld.linksEntries kvs, r) := by
  intro n
  induction n with
  | zero =>
    intro bs kvs r h
    simp only [Ipld.decEntriesWith, Option.some.injEq, Prod.mk.injEq] at h
    obtain ⟨h1, h2⟩ := h
    subst h1
    subst h2
    simp [scanEntriesWith, Ipld.linksEntries]
  | succ n ih =>
    intro bs kvs r h
    simp only [Ipld.decEntriesWith] at h
    simp only [scanEntriesWith]
    rcases hrh : readHead bs with _ | ⟨majk, kl, r0⟩
    · rw [hrh] at h
      exact absurd h (by simp)
    rw [hrh] at h
    have h2 : (if majk = 3 then
        match takeExact kl r0 with
        | none => none
        | some (k, r2) =>
          match decF r2 with
          | none => none
          | some (v, r3) =>
            match Ipld.decEntriesWith decF n r3 with
            | none => none
            | some (kvs2, r4) => some ((k, v) :: kvs2, r4)
      else none) = some (kvs, r) := h
    by_cases hk : majk = 3
    · rw [if_pos hk] at h2
      show (if majk = 3 then
          match takeExact kl r0 with
          | none => none
          | some (_, r2) =>
            match scanF r2 with
            | none => none
            | some (ls, r3) =>
              match scanEntriesWith scanF n r3 with
              | none => none
              | some (ls2, r4) => some (ls ++ ls2, r4)
        else none) = some (Ipld.linksEntries kvs, r)
      rw [if_pos hk]
      rcases htk : takeExact kl r0 with _ | ⟨k, r2⟩
      · rw [htk] at h2
        exact absurd h2 (by simp)
      rw [htk] at h2
      have h3 : (match decF r2 with
          | none => none
          | some (v, r3) =>
            match Ipld.decEntriesWith decF n r3 with
            | none => none
            | some (kvs2, r4) => some ((k, v) :: kvs2, r4)) = some (kvs, r) := h2
      show (match scanF r2 with
          | none => none
          | some (ls, r3) =>
            match scanEntriesWith scanF n r3 with
            | none => none
            | some (ls2, r4) => some (ls ++ ls2, r4)) = some (Ipld.linksEntries kvs, r)
      rcases hd : decF r2 with _ | ⟨v, r3⟩
      · rw [hd] at h3
        exact absurd h3 (by simp)
      rw [hd] at h3
      have h4 : (match Ipld.decEntriesWith decF n r3 with
          | none => none
          | some (kvs2, r4) => some ((k, v) :: kvs2, r4)) = some (kvs, r) := h3
      rcases hde : Ipld.decEntriesWith decF n r3 with _ | ⟨kvs2, r4⟩
      · rw [hde] at h4
        exact absurd h4 (by simp)
      rw [hde] at h4
      have h5 : some ((k, v) :: kvs2, r4) = some (kvs, r) := h4
      simp only [Option.some.injEq, Prod.mk.injEq] at h5
      obtain ⟨h6, h7⟩ := h5
      subst h6
      subst h7
      simp only [hag r2 v r3 hd, ih r3 kvs2 r4 hde]
      simp [Ipld.linksEntries]
    · rw [if_neg hk] at h2
      exact absurd h2 (by simp)

theorem scanLinks_dec : ∀ fuel bs v r, Ipld.dec fuel bs = some (v, r) →
    scanLinks fuel bs = some (Ipld.linksOf v, r) := by
  intro fuel
  induction fuel with
  | zero =>
    intro bs v r h
    simp [Ipld.dec] at h
  | succ fuel ih =>
    intro bs v r h
    simp only [Ipld.dec] at h
    simp only [scanLinks]
    rcases hrh : readHead bs with _ | ⟨maj, arg, r0⟩
    · rw [hrh] at h
      exact absurd h (by simp)
    rw [hrh] at h
    have h2 : (if maj = 0 then some (Ipld.int (Int.ofNat arg), r0)
      else if maj = 1 then some (Ipld.int (-(Int.ofNat arg + 1)), r0)
      else if maj = 2 then
        match takeExact arg r0 with
        | none => none
        | some (b, r2) => some (Ipld.bytes b, r2)
      else if maj = 3 then
        match takeExact arg r0 with
        | none => none
        | some (s, r2) => some (Ipld.str s, r2)
      else if maj = 4 then
        match Ipld.decListWith (fun b2 => Ipld.dec fuel b2) arg r0 with
        | none => none
        | some (xs, r2) => some (Ipld.arr xs, r2)
      else if maj = 5 then
        match Ipld.decEntriesWith (fun b2 => Ipld.dec fuel b2) arg r0 with
        | none => none
        | some (kvs, r2) => some (Ipld.map kvs, r2)
      else if maj = 6 then
        if arg = 42 then
          match readHead r0 with
          | some (maj2, n, r2) =>
            if maj2 = 2 then
              match takeExact n r2 with
              | some (cb, r3) =>
                match cb with
                | 0 :: cb2 =>
                  match cidFromBytes cb2 with
                  | some c => some (Ipld.link c, r3)
                  | none => none
                | _ => none
              | none => none
            else none
          | none => none
        else none
      else
        if arg = 20 then some (Ipld.bool false, r0)
        else if arg = 21 then some (Ipld.bool true, r0)
        else if arg = 22 then some (Ipld.null, r0)
        else none) = some (v, r) := h
    show (if maj = 0 then some ([], r0)
      else if maj = 1 then some ([], r0)
      else if maj = 2 then
        match takeExact arg r0 with
        | none => none
        | some (_, r2) => some ([], r2)
      else if maj = 3 then
        match takeExact arg r0 with
        | none => none
        | some (_, r2) => some ([], r2)
      else if maj = 4 then
        scanListWith (fun b2 => scanLinks fuel b2) arg r0
      else if maj = 5 then
        scanEntriesWith (fun b2 => scanLinks fuel b2) arg r0
      else if maj = 6 then
        if arg = 42 then
          match readHead r0 with
          | some (maj2, n, r2) =>
            if maj2 = 2 then
              match takeExact n r2 with
              | some (cb, r3) =>
                match cb with
                | 0 :: cb2 =>
                  match cidFromBytes cb2 with
                  | some c => some ([c], r3)
                  | none => none
                | _ => none
              | none => none
            else none
          | none => none
        else none
      else
        if arg = 20 then some ([], r0)
        else if arg = 21 then some ([], r0)
        else if arg = 22 then some ([], r0)
        else none) = some (Ipld.linksOf v, r)
    by_cases h0 : maj = 0
    · rw [if_pos h0] at h2 ⊢
      simp only [Option.some.injEq, Prod.mk.injEq] at h2
      obtain ⟨hv, hr⟩ := h2
      subst hv
      subst hr
      simp [Ipld.linksOf]
    rw [if_neg h0] at h2 ⊢
    by_cases h1 : maj = 1
    · rw [if_pos h1] at h2 ⊢
      simp only [Option.some.injEq, Prod.mk.injEq] at h2
      obtain ⟨hv, hr⟩ := h2
      subst hv
      subst hr
      simp [Ipld.linksOf]
    rw [if_neg h1] at h2 ⊢
    by_cases hb : maj = 2
    · rw [if_pos hb] at h2 ⊢
      rcases htk : takeExact arg r0 with _ | ⟨b, r2⟩
      · rw [htk] at h2
        exact absurd h2 (by simp)
      rw [htk] at h2
      have h3 : some (Ipld.bytes b, r2) = some (v, r) := h2
      simp only [Option.some.injEq, Prod.mk.injEq] at h3
      obtain ⟨hv, hr⟩ := h3
      subst hv
      subst hr
      simp [Ipld.linksOf]
    rw [if_neg hb] at h2 ⊢
    by_cases hs : maj = 3
    · rw [if_pos hs] at h2 ⊢
      rcases htk : takeExact arg r0 with _ | ⟨s, r2⟩
      · rw [htk] at h2
        exact absurd h2 (by simp)
      rw [htk] at h2
      have h3 : some (Ipld.str s, r2) = some (v, r) := h2
      simp only [Option.some.injEq, Prod.mk.injEq] at h3
      obtain ⟨hv, hr⟩ := h3
      subst hv
      subst hr
      simp [Ipld.linksOf]
    rw [if_neg hs] at h2 ⊢
    by_cases ha : maj = 4
    · rw [if_pos ha] at h2 ⊢
      rcases hdl : Ipld.decListWith (fun b2 => Ipld.dec fuel b2) arg r0 with _ | ⟨xs, r2⟩
      · rw [hdl] at h2
        exact absurd h2 (by simp)
      rw [hdl] at h2
      have h3 : some (Ipld.arr xs, r2) = some (v, r) := h2
      simp only [Option.some.injEq, Prod.mk.injEq] at h3
      obtain ⟨hv, hr⟩ := h3
      subst hv
      subst hr
      have hsl := scanListWith_agree (fun b2 => Ipld.dec fuel b2)
        (fun b2 => scanLinks fuel b2) (fun bs2 v2 r5 h5 => ih bs2 v2 r5 h5)
        arg r0 xs r2 hdl
      rw [hsl]
      simp [Ipld.linksOf]
    rw [if_neg ha] at h2 ⊢
    by_cases hm : maj = 5
    · rw [if_pos hm] at h2 ⊢
      rcases hde : Ipld.decEntriesWith (fun b2 => Ipld.dec fuel b2) arg r0 with _ | ⟨kvs, r2⟩
      · rw [hde] at h2
        exact absurd h2 (by simp)
      rw [hde] at h2
      have h3 : some (Ipld.map kvs, r2) = some (v, r) := h2
      simp only [Option.some.injEq, Prod.mk.injEq] at h3
      obtain ⟨hv, hr⟩ := h3
      subst hv
      subst hr
      have hse := scanEntriesWith_agree (fun b2 => Ipld.dec fuel b2)
        (fun b2 => scanLinks fuel b2) (fun bs2 v2 r5 h5 => ih bs2 v2 r5 h5)
        arg r0 kvs r2 hde
      rw [hse]
      simp [Ipld.linksOf]
    rw [if_neg hm] at h2 ⊢
    by_cases ht : maj = 6
    · rw [if_pos ht] at h2 ⊢
      by_cases h42 : arg = 42
      · rw [if_pos h42] at h2 ⊢
        rcases hrh2 : readHead r0 with _ | ⟨maj2, n2, r2⟩
        · rw [hrh2] at h2
          exact absurd h2 (by simp)
        rw [hrh2] at h2
        have h3 : (if maj2 = 2 then
            match takeExact n2 r2 with
            | some (cb, r3) =>
              match cb with
              | 0 :: cb2 =>
                match cidFromBytes cb2 with
                | some c => some (Ipld.link c, r3)
                | none => none
              | _ => none
            | none => none
          else none) = some (v, r) := h2
        show (if maj2 = 2 then
            match takeExact n2 r2 with
            | some (cb, r3) =>
              match cb with
              | 0 :: cb2 =>
                match cidFromBytes cb2 with
                | some c => some ([c], r3)
                | none => none
              | _ => none
            | none => none
          else none) = some (Ipld.linksOf v, r)
        by_cases hm2 : maj2 = 2
        · rw [if_pos hm2] at h3 ⊢
          rcases htk2 : takeExact n2 r2 with _ | ⟨cb, r3⟩
          · rw [htk2] at h3
            exact absurd h3 (by simp)
          rw [htk2] at h3
          rcases cb with _ | ⟨b0, cb2⟩
          · have h4 : (none : Option (Ipld × List Nat)) = some (v, r) := h3
            exact absurd h4 (by simp)
          rcases b0 with _ | b0x
          · have h4 : (match cidFromBytes cb2 with
                | some c => some (Ipld.link c, r3)
                | none => none) = some (v, r) := h3
            show (match cidFromBytes cb2 with
                | some c => some ([c], r3)
                | none => none) = some (Ipld.linksOf v, r)
            rcases hc : cidFromBytes cb2 with _ | c
            · rw [hc] at h4
              exact absurd h4 (by simp)
            rw [hc] at h4
            have h5 : some (Ipld.link c, r3) = some (v, r) := h4
            simp only [Option.some.injEq, Prod.mk.injEq] at h5
            obtain ⟨hv, hr⟩ := h5
            subst hv
            subst hr
            simp [Ipld.linksOf]
          · have h4 : (none : Option (Ipld × List Nat)) = some (v, r) := h3
            exact absurd h4 (by simp)
        · rw [if_neg hm2] at h3
          exact absurd h3 (by simp)
      · rw [if_neg h42] at h2
        exact absurd h2 (by simp)
    rw [if_neg ht] at h2 ⊢
    by_cases h20 : arg = 20
    · rw [if_pos h20] at h2 ⊢
      simp only [Option.some.injEq, Prod.mk.injEq] at h2
      obtain ⟨hv, hr⟩ := h2
      subst hv
      subst hr
      simp [Ipld.linksOf]
    rw [if_neg h20] at h2 ⊢
    by_cases h21 : arg = 21
    · rw [if_pos h21] at h2 ⊢
      simp only [Option.some.injEq, Prod.mk.injEq] at h2
      obtain ⟨hv, hr⟩ := h2
      subst hv
      subst hr
      simp [Ipld.linksOf]
    rw [if_neg h21] at h2 ⊢
    by_cases h22 : arg = 22
    · rw [if_pos h22] at h2 ⊢
      simp only [Option.some.injEq, Prod.mk.injEq] at h2
      obtain ⟨hv, hr⟩ := h2
      subst hv
      subst hr
      simp [Ipld.linksOf]
    rw [if_neg h22] at h2 ⊢
    exact absurd h2 (by simp)

/-- C9: on any byte sequence that is well-formed at the canonical-tree
level, the links operation succeeds and returns exactly the content
identifiers embedded in the tree; it imposes no requirement that the full
decode to a `Jose` value succeed. -/
theorem links_succeed_on_wellformed_tree (bs : List Nat) (v : Ipld)
    (h : decodeIpldTop bs = some v) :
    DagJoseCodec.links bs = .ok (Ipld.linksOf v) := by
  unfold decodeIpldTop at h
  unfold DagJoseCodec.links
  rcases hd : Ipld.dec (bs.length + 1) bs with _ | ⟨x, rrest⟩
  · rw [hd] at h
    exact absurd h (by simp)
  rw [hd] at h
  rcases rrest with _ | ⟨b, rr⟩
  · have h2 : some x = some v := h
    obtain rfl : x = v := by simpa using h2
    rw [scanLinks_dec _ _ _ _ hd]
  · have h2 : (none : Option Ipld) = some v := h
    exact absurd h2 (by simp)

def cidW9 : Cid :=
  { version := 1, codec := 85, hashCode := 18, hashSize := 2, digest := [170, 187] }

/-- The canonical encoding, spelled as literal bytes, of a two-entry map
holding a link to `cidW9` under key "a" and the single byte 1 under key
"payload". -/
def bsW9 : List Nat :=
  [162, 97, 97, 216, 42, 71, 0, 1, 85, 18, 2, 170, 187,
   103, 112, 97, 121, 108, 111, 97, 100, 65, 1]

theorem links_succeed_on_wellformed_tree_witness :
    DagJoseCodec.links bsW9 =
      .ok (Ipld.linksOf (.map [([97], .link cidW9), (kPayload, .bytes [1])])) ∧
    (DagJoseCodec.decodeJose bsW9).isOk = false :=
  ⟨links_succeed_on_wellformed_tree bsW9
      (.map [([97], .link cidW9), (kPayload, .bytes [1])]) rfl, rfl⟩

/-- Concatenation of per-element string-field lists. -/
def listFlat {α : Type} (f : α → List Str) : List α → List Str
  | [] => []
  | x :: t => f x ++ listFlat f t

/-- Per-element string fields of an optional vector. -/
def optFlat {α : Type} (f : α → List Str) : Option (List α) → List Str
  | none => []
  | some l => listFlat f l

/-- The base64url text fields of a signature consumed by the domain-to-wire
conversion. -/
def DecodedSignature.b64Fields (s : DecodedSignature) : List Str :=
  s.protected_.toList ++ [s.signature]

/-- The base64url text fields of a recipient consumed by the domain-to-wire
conversion. -/
def DecodedRecipient.b64Fields (r : DecodedRecipient) : List Str :=
  r.encrypted_key.toList

/-- All base64url text fields consumed by `TryFrom<Decoded> for Encoded`,
in its evaluation order. -/
def Decoded.b64Fields (d : Decoded) : List Str :=
  d.payload.toList ++
  optFlat DecodedSignature.b64Fields d.signatures ++
  d.aad.toList ++ d.ciphertext.toList ++ d.iv.toList ++ d.protected_.toList ++
  optFlat DecodedRecipient.b64Fields d.recipients ++
  d.tag.toList

theorem fromBase64_dichotomy (s : Str) :
    ((base64urlDecode s).isSome = true ∧ ∃ b, fromBase64 s = .ok b) ∨
    ((base64urlDecode s).isSome = false ∧ fromBase64 s = .error .invalidBase64Url) := by
  rcases h : base64urlDecode s with _ | b
  · right
    simp [fromBase64, h]
  · left
    simp [fromBase64, h]

theorem fromBase64Opt_dichotomy (o : Option Str) :
    ((∀ s ∈ o.toList, (base64urlDecode s).isSome = true) ∧
      ∃ b, fromBase64Opt o = .ok b) ∨
    ((∃ s ∈ o.toList, (base64urlDecode s).isSome = false) ∧
      fromBase64Opt o = .error .invalidBase64Url) := by
  rcases o with _ | s
  · exact Or.inl ⟨by simp, ⟨none, rfl⟩⟩
  · rcases fromBase64_dichotomy s with ⟨hv, b, hb⟩ | ⟨hv, hb⟩
    · exact Or.inl ⟨by simpa using hv,
        ⟨some b, by simp [fromBase64Opt, hb, Except.map]⟩⟩
    · exact Or.inr ⟨⟨s, by simp, hv⟩, by simp [fromBase64Opt, hb, Except.map]⟩

theorem sig_b64_dichotomy (v : DecodedSignature) :
    ((∀ s ∈ v.b64Fields, (base64urlDecode s).isSome = true) ∧
      ∃ e, EncodedSignature.tryFromDecodedSig v = .ok e) ∨
    ((∃ s ∈ v.b64Fields, (base64urlDecode s).isSome = false) ∧
      EncodedSignature.tryFromDecodedSig v = .error .invalidBase64Url) := by
  rcases fromBase64Opt_dichotomy v.protected_ with ⟨hv1, p, hp⟩ | ⟨⟨s, hs, hbad⟩, hp⟩
  · rcases fromBase64_dichotomy v.signature with ⟨hv2, b, hb⟩ | ⟨hv2, hb⟩
    · left
      refine ⟨?_, ⟨{ header := v.header, protected_ := p, signature := b }, ?_⟩⟩
      · intro s hs
        simp only [DecodedSignature.b64Fields, List.mem_append, List.mem_singleton] at hs
        rcases hs with hs | rfl
        · exact hv1 s hs
        · exact hv2
      · simp [EncodedSignature.tryFromDecodedSig, bind, Except.bind, hp, hb,
          pure, Except.pure]
    · right
      refine ⟨⟨v.signature, ?_, hv2⟩, ?_⟩
      · simp [DecodedSignature.b64Fields]
      · simp [EncodedSignature.tryFromDecodedSig, bind, Except.bind, hp, hb]
  · right
    refine ⟨⟨s, ?_, hbad⟩, ?_⟩
    · simp only [DecodedSignature.b64Fields, List.mem_append]
      exact Or.inl hs
    · simp [EncodedSignature.tryFromDecodedSig, bind, Except.bind, hp]

theorem rec_b64_dichotomy (v : DecodedRecipient) :
    ((∀ s ∈ v.b64Fields, (base64urlDecode s).isSome = true) ∧
      ∃ e, EncodedRecipient.tryFromDecodedRec v = .ok e) ∨
    ((∃ s ∈ v.b64Fields, (base64urlDecode s).isSome = false) ∧
      EncodedRecipient.tryFromDecodedRec v = .error .invalidBase64Url) := by
  rcases fromBase64Opt_dichotomy v.encrypted_key with ⟨hv, b, hb⟩ | ⟨⟨s, hs, hbad⟩, hb⟩
  · left
    refine ⟨by simpa [DecodedRecipient.b64Fields] using hv,
      ⟨{ header := v.header, encrypted_key := b }, ?_⟩⟩
    simp [EncodedRecipient.tryFromDecodedRec, bind, Except.bind, hb,
      pure, Except.pure]
  · right
    refine ⟨⟨s, by simpa [DecodedRecipient.b64Fields] using hs, hbad⟩, ?_⟩
    simp [EncodedRecipient.tryFromDecodedRec, bind, Except.bind, hb]

theorem exceptMapM_dichotomy {α β : Type} (f : α → Except Error β) (fl : α → List Str)
    (hd : ∀ a, ((∀ s ∈ fl a, (base64urlDecode s).isSome = true) ∧ ∃ b, f a = .ok b) ∨
      ((∃ s ∈ fl a, (base64urlDecode s).isSome = false) ∧ f a = .error .invalidBase64Url))
    (l : List α) :
    ((∀ s ∈ listFlat fl l, (base64urlDecode s).isSome = true) ∧
      ∃ bs, exceptMapM f l = .ok bs) ∨
    ((∃ s ∈ listFlat fl l, (base64urlDecode s).isSome = false) ∧
      exceptMapM f l = .error .invalidBase64Url) := by
  induction l with
  | nil => exact Or.inl ⟨by simp [listFlat], ⟨[], rfl⟩⟩
  | cons a t ih =>
    rcases hd a with ⟨hv1, b, hb⟩ | ⟨⟨s, hs, hbad⟩, he⟩
    · rcases ih with ⟨hv2, bs, hbs⟩ | ⟨⟨s, hs, hbad⟩, he⟩
      · left
        refine ⟨?_, ⟨b :: bs, ?_⟩⟩
        · intro s hs
          simp only [listFlat, List.mem_append] at hs
          rcases hs with hs | hs
          · exact hv1 s hs
          · exact hv2 s hs
        · simp [exceptMapM, bind, Except.bind, hb, hbs, pure, Except.pure]
      · right
        refine ⟨⟨s, ?_, hbad⟩, ?_⟩
        · simp only [listFlat, List.mem_append]
          exact Or.inr hs
        · simp [exceptMapM, bind, Except.bind, hb, he]
    · right
      refine ⟨⟨s, ?_, hbad⟩, ?_⟩
      · simp only [listFlat, List.mem_append]
        exact Or.inl hs
      · simp [exceptMapM, bind, Except.bind, he]

theorem optionMapM_dichotomy {α β : Type} (f : α → Except Error β) (fl : α → List Str)
    (hd : ∀ a, ((∀ s ∈ fl a, (base64urlDecode s).isSome = true) ∧ ∃ b, f a = .ok b) ∨
      ((∃ s ∈ fl a, (base64urlDecode s).isSome = false) ∧ f a = .error .invalidBase64Url))
    (o : Option (List α)) :
    ((∀ s ∈ optFlat fl o, (base64urlDecode s).isSome = true) ∧
      ∃ bs, optionMapM f o = .ok bs) ∨
    ((∃ s ∈ optFlat fl o, (base64urlDecode s).isSome = false) ∧
      optionMapM f o = .error .invalidBase64Url) := by
  rcases o with _ | l
  · exact Or.inl ⟨by simp [optFlat], ⟨none, rfl⟩⟩
  · rcases exceptMapM_dichotomy f fl hd l with ⟨hv, bs, hbs⟩ | ⟨⟨s, hs, hbad⟩, he⟩
    · exact Or.inl ⟨by simpa [optFlat] using hv,
        ⟨some bs, by simp [optionMapM, hbs, Except.map]⟩⟩
    · exact Or.inr ⟨⟨s, by simpa [optFlat] using hs, hbad⟩,
        by simp [optionMapM, he, Except.map]⟩

theorem tryFromDecoded_b64_dichotomy (d : Decoded) :
    ((∀ s ∈ d.b64Fields, (base64urlDecode s).isSome = true) ∧
      ∃ e, Encoded.tryFromDecoded d = .ok e) ∨
    ((∃ s ∈ d.b64Fields, (base64urlDecode s).isSome = false) ∧
      Encoded.tryFromDecoded d = .error .invalidBase64Url) := by
  rcases fromBase64Opt_dichotomy d.payload with ⟨v1, p1, h1⟩ | ⟨⟨s, hs, hbad⟩, h1⟩
  · rcases optionMapM_dichotomy EncodedSignature.tryFromDecodedSig
      DecodedSignature.b64Fields sig_b64_dichotomy d.signatures with
      ⟨v2, p2, h2⟩ | ⟨⟨s, hs, hbad⟩, h2⟩
    · rcases fromBase64Opt_dichotomy d.aad with ⟨v3, p3, h3⟩ | ⟨⟨s, hs, hbad⟩, h3⟩
      · rcases fromBase64Opt_dichotomy d.ciphertext with ⟨v4, p4, h4⟩ | ⟨⟨s, hs, hbad⟩, h4⟩
        · rcases fromBase64Opt_dichotomy d.iv with ⟨v5, p5, h5⟩ | ⟨⟨s, hs, hbad⟩, h5⟩
          · rcases fromBase64Opt_dichotomy d.protected_ with ⟨v6, p6, h6⟩ | ⟨⟨s, hs, hbad⟩, h6⟩
            · rcases optionMapM_dichotomy EncodedRecipient.tryFromDecodedRec
                DecodedRecipient.b64Fields rec_b64_dichotomy d.recipients with
                ⟨v7, p7, h7⟩ | ⟨⟨s, hs, hbad⟩, h7⟩
              · rcases fromBase64Opt_dichotomy d.tag with ⟨v8, p8, h8⟩ | ⟨⟨s, hs, hbad⟩, h8⟩
                · left
                  refine ⟨?_, ⟨⟨p1, p2, p5, p3, p8, p6, p4, p7, d.unprotected⟩, ?_⟩⟩
                  · intro s hs
                    simp only [Decoded.b64Fields, List.mem_append] at hs
                    rcases hs with (((((((hs | hs) | hs) | hs) | hs) | hs) | hs) | hs)
                    · exact v1 s hs
                    · exact v2 s hs
                    · exact v3 s hs
                    · exact v4 s hs
                    · exact v5 s hs
                    · exact v6 s hs
                    · exact v7 s hs
                    · exact v8 s hs
                  · simp [Encoded.tryFromDecoded, bind, Except.bind, pure,
                      Except.pure, h1, h2, h3, h4, h5, h6, h7, h8]
                · right
                  refine ⟨⟨s, ?_, hbad⟩, ?_⟩
                  · simp only [Decoded.b64Fields, List.mem_append]
                    tauto
                  · simp [Encoded.tryFromDecoded, bind, Except.bind,
                      h1, h2, h3, h4, h5, h6, h7, h8]
              · right
                refine ⟨⟨s, ?_, hbad⟩, ?_⟩
                · simp only [Decoded.b64Fields, List.mem_append]
                  tauto
                · simp [Encoded.tryFromDecoded, bind, Except.bind,
                    h1, h2, h3, h4, h5, h6, h7]
            · right
              refine ⟨⟨s, ?_, hbad⟩, ?_⟩
              · simp only [Decoded.b64Fields, List.mem_append]
                tauto
              · simp [Encoded.tryFromDecoded, bind, Except.bind,
                  h1, h2, h3, h4, h5, h6]
          · right
            refine ⟨⟨s, ?_, hbad⟩, ?_⟩
            · simp only [Decoded.b64Fields, List.mem_append]
              tauto
            · simp [Encoded.tryFromDecoded, bind, Except.bind, h1, h2, h3, h4, h5]
        · right
          refine ⟨⟨s, ?_, hbad⟩, ?_⟩
          · simp only [Decoded.b64Fields, List.mem_append]
            tauto
          · simp [Encoded.tryFromDecoded, bind, Except.bind, h1, h2, h3, h4]
      · right
        refine ⟨⟨s, ?_, hbad⟩, ?_⟩
        · simp only [Decoded.b64Fields, List.mem_append]
          tauto
        · simp [Encoded.tryFromDecoded, bind, Except.bind, h1, h2, h3]
    · right
      refine ⟨⟨s, ?_, hbad⟩, ?_⟩
      · simp only [Decoded.b64Fields, List.mem_append]
        tauto
      · simp [Encoded.tryFromDecoded, bind, Except.bind, h1, h2]
  · right
    refine ⟨⟨s, ?_, hbad⟩, ?_⟩
    · simp only [Decoded.b64Fields, List.mem_append]
      tauto
    · simp [Encoded.tryFromDecoded, bind, Except.bind, h1]

/-- C8: in the domain-to-wire direction, a base64url text field that does
not decode makes the conversion fail with the invalid-base64url error,
while all fields decoding makes every base64 step succeed. -/
theorem encode_base64url_error_handling (d : Decoded) :
    ((∀ s ∈ d.b64Fields, (base64urlDecode s).isSome = true) →
      ∃ e, Encoded.tryFromDecoded d = .ok e) ∧
    ((∃ s ∈ d.b64Fields, (base64urlDecode s).isSome = false) →
      Encoded.tryFromDecoded d = .error .invalidBase64Url) := by
  constructor
  · intro hall
    rcases tryFromDecoded_b64_dichotomy d with ⟨_, he⟩ | ⟨⟨s, hs, hbad⟩, _⟩
    · exact he
    · exact absurd (hall s hs) (by simp [hbad])
  · rintro ⟨s, hs, hbad⟩
    rcases tryFromDecoded_b64_dichotomy d with ⟨hall, _⟩ | ⟨_, he⟩
    · exact absurd (hall s hs) (by simp [hbad])
    · exact he

def dW8ok : Decoded :=
  { payload := some [65, 65], signatures := none, link := none, aad := none,
    ciphertext := none, iv := none, protected_ := none, recipients := none,
    tag := none, unprotected := none }

def dW8bad : Decoded :=
  { dW8ok with payload := some [33] }

theorem encode_base64url_error_handling_witness :
    (∃ e, Encoded.tryFromDecoded dW8ok = .ok e) ∧
    Encoded.tryFromDecoded dW8bad = .error .invalidBase64Url :=
  ⟨(encode_base64url_error_handling dW8ok).1 (by decide),
   (encode_base64url_error_handling dW8bad).2 ⟨[33], by decide, by decide⟩⟩

/-- JSON tree values, the wire format of the text codec
(`serde_ipld_dagjson`). -/
inductive Json where
  | null : Json
  | bool (b : Bool) : Json
  | num (n : Int) : Json
  | str (s : Str) : Json
  | arr (xs : List Json) : Json
  | obj (kvs : List (Str × Json)) : Json

/-- The single-character key "/" of the DAG-JSON special forms. -/
def kSlash : Str := [47]

/-- The key "bytes" inside the DAG-JSON byte form. -/
def kBytes : Str := [98, 121, 116, 101, 115]

/-- Modelled from the spec: the text codec renders a link as the
single-entry object keyed by the slash string; the multibase text of the
identifier is kept abstract as its byte form, which is immaterial here. -/
def cidToJson (c : Cid) : Json := .obj [(kSlash, .str (cidToBytes c))]

/-- Modelled from the spec: the text codec renders raw bytes as the
slash-keyed object holding a "bytes" entry of standard-alphabet unpadded
base64 text. -/
def bytesToJson (b : List Nat) : Json :=
  .obj [(kSlash, .obj [(kBytes, .str (base64StdEncode b))])]

mutual

/-- Modelled from the spec: text-codec serialization of generic tree
values. -/
def Ipld.toJson : Ipld → Json
  | .null => .null
  | .bool b => .bool b
  | .int i => .num i
  | .bytes b => bytesToJson b
  | .str s => .str s
  | .arr xs => .arr (Ipld.toJsonList xs)
  | .map m => .obj (Ipld.toJsonEntries m)
  | .link c => cidToJson c

/-- Text-codec serialization of a list of tree values. -/
def Ipld.toJsonList : List Ipld → List Json
  | [] => []
  | x :: t => Ipld.toJson x :: Ipld.toJsonList t

/-- Text-codec serialization of map entries. -/
def Ipld.toJsonEntries : List (Str × Ipld) → List (Str × Json)
  | [] => []
  | (k, v) :: t => (k, Ipld.toJson v) :: Ipld.toJsonEntries t

end

/-- An optional serde field of a JSON object: absent or a single entry. -/
def optFieldJ (k : Str) : Option Json → List (Str × Json)
  | none => []
  | some v => [(k, v)]

/-- Serde serialization of `Signature` to the text codec (lib.rs
declaration order: `header` skipped when empty, `protected` always
present and null when none, `signature`). -/
def Signature.toJson (s : Signature) : Json :=
  .obj (optFieldJ kHeader
      (if s.header.isEmpty then none else some (.obj (Ipld.toJsonEntries s.header))) ++
    [(kProtected, match s.protected_ with | none => Json.null | some p => Json.str p),
     (kSignature, Json.str s.signature)])

/-- Serde serialization of `JsonWebSignature` to the text codec (lib.rs
declaration order: `link`, `payload`, `signatures`; no field skipped). -/
def JsonWebSignature.toJson (v : JsonWebSignature) : Json :=
  .obj [(kLink, cidToJson v.link),
        (kPayload, Json.str v.payload),
        (kSignatures, .arr (v.signatures.map Signature.toJson))]

/-- Serde serialization of `Recipient` to the text codec (lib.rs
declaration order: `encrypted_key` always present and null when none,
`header` skipped when empty). -/
def Recipient.toJson (r : Recipient) : Json :=
  .obj ([(kEncryptedKey,
      match r.encrypted_key with | none => Json.null | some ek => Json.str ek)] ++
    optFieldJ kHeader
      (if r.header.isEmpty then none else some (.obj (Ipld.toJsonEntries r.header))))

/-- Serde serialization of `JsonWebEncryption` to the text codec (lib.rs
declaration order: `aad` skipped when none, `ciphertext`, `iv`,
`protected`, `recipients` skipped when empty, `tag`, `unprotected`
skipped when empty). -/
def JsonWebEncryption.toJson (v : JsonWebEncryption) : Json :=
  .obj (optFieldJ kAad (v.aad.map Json.str) ++
    [(kCiphertext, Json.str v.ciphertext),
     (kIv, Json.str v.iv),
     (kProtected, Json.str v.protected_)] ++
    optFieldJ kRecipients
      (if v.recipients.isEmpty then none
       else some (.arr (v.recipients.map Recipient.toJson))) ++
    [(kTag, Json.str v.tag)] ++
    optFieldJ kUnprotected
      (if v.unprotected.isEmpty then none
       else some (.obj (Ipld.toJsonEntries v.unprotected))))

/-- First-match key lookup in a JSON object. -/
def lookupKeyJ : List (Str × Json) → Str → Option Json
  | [], _ => none
  | (k2, v) :: t, k => if k2 = k then some v else lookupKeyJ t k

/-- Object view of a JSON value. -/
def Json.asObj : Json → Option (List (Str × Json))
  | .obj m => some m
  | _ => none

/-- Array view of a JSON value. -/
def Json.asArr : Json → Option (List Json)
  | .arr xs => some xs
  | _ => none

/-- Modelled from the spec: text-codec byte parsing, accepting only the
slash-keyed "bytes" object with valid standard-alphabet unpadded base64
text; in particular a plain JSON string is not a byte value. -/
def jsonAsBytes : Json → Option (List Nat)
  | .obj [(k1, .obj [(k2, .str s)])] =>
    if k1 = kSlash ∧ k2 = kBytes then base64StdDecode s else none
  | _ => none

mutual

/-- Modelled from the spec: text-codec deserialization of generic tree
values (slash-keyed objects become links or bytes, other objects become
maps). -/
def Json.toIpld : Json → Option Ipld
  | .null => some .null
  | .bool b => some (.bool b)
  | .num n => some (.int n)
  | .str s => some (.str s)
  | .arr xs => (Json.toIpldList xs).map Ipld.arr
  | .obj [(k, .str s)] =>
    if k = kSlash then (cidFromBytes s).map Ipld.link
    else (Json.toIpldEntries [(k, .str s)]).map Ipld.map
  | .obj [(k, .obj [(k2, .str s2)])] =>
    if k = kSlash then
      if k2 = kBytes then (base64StdDecode s2).map Ipld.bytes else none
    else (Json.toIpldEntries [(k, .obj [(k2, .str s2)])]).map Ipld.map
  | .obj m => (Json.toIpldEntries m).map Ipld.map

/-- Text-codec deserialization of a JSON array into tree values. -/
def Json.toIpldList : List Json → Option (List Ipld)
  | [] => some []
  | x :: t =>
    match Json.toIpld x, Json.toIpldList t with
    | some y, some ys => some (y :: ys)
    | _, _ => none

/-- Text-codec deserialization of JSON object entries into map entries. -/
def Json.toIpldEntries : List (Str × Json) → Option (List (Str × Ipld))
  | [] => some []
  | (k, v) :: t =>
    match Json.toIpld v, Json.toIpldEntries t with
    | some y, some ys => some ((k, y) :: ys)
    | _, _ => none

end

/-- Header-map view of a JSON value. -/
def jsonAsMap (v : Json) : Option IMap :=
  (v.asObj).bind Json.toIpldEntries

/-- An optional field under serde deserialization from JSON: absence is
fine, a present value must parse. -/
def getOptJ {α : Type} (m : List (Str × Json)) (k : Str) (f : Json → Option α) :
    Option (Option α) :=
  match lookupKeyJ m k with
  | none => some none
  | some v => (f v).map some

/-- Serde deserialization of `EncodedSignature` from JSON. -/
def EncodedSignature.fromJson (j : Json) : Option EncodedSignature := do
  let m ← j.asObj
  let h ← getOptJ m kHeader jsonAsMap
  let p ← getOptJ m kProtected jsonAsBytes
  let sv ← lookupKeyJ m kSignature
  let s ← jsonAsBytes sv
  pure { header := h, protected_ := p, signature := s }

/-- Serde deserialization of `EncodedRecipient` from JSON. -/
def EncodedRecipient.fromJson (j : Json) : Option EncodedRecipient := do
  let m ← j.asObj
  let h ← getOptJ m kHeader jsonAsMap
  let ek ← getOptJ m kEncryptedKey jsonAsBytes
  pure { header := h, encrypted_key := ek }

/-- Serde deserialization of the wire struct `Encoded` from JSON
(`serde_ipld_dagjson::from_reader` target of the text-codec decode
paths, lib.rs lines 138-148, 196-207, 318-328): every field optional,
byte fields demand the slash-keyed byte form. -/
def Encoded.fromJson (j : Json) : Option Encoded := do
  let m ← j.asObj
  let payload ← getOptJ m kPayload jsonAsBytes
  let signatures ← getOptJ m kSignatures
    (fun v => (v.asArr).bind (optTraverse EncodedSignature.fromJson))
  let iv ← getOptJ m kIv jsonAsBytes
  let aad ← getOptJ m kAad jsonAsBytes
  let tag ← getOptJ m kTag jsonAsBytes
  let protected_ ← getOptJ m kProtected jsonAsBytes
  let ciphertext ← getOptJ m kCiphertext jsonAsBytes
  let recipients ← getOptJ m kRecipients
    (fun v => (v.asArr).bind (optTraverse EncodedRecipient.fromJson))
  let unprotected ← getOptJ m kUnprotected jsonAsMap
  pure { payload := payload, signatures := signatures, iv := iv, aad := aad,
         tag := tag, protected_ := protected_, ciphertext := ciphertext,
         recipients := recipients, unprotected := unprotected }

/-- `Codec<JsonWebSignature>::encode` for the text codec (lib.rs lines
199-205): the domain value is serialized directly, base64url fields kept
as text. -/
def DagJsonCodec.encodeJws (v : JsonWebSignature) : Json :=
  JsonWebSignature.toJson v

/-- `Codec<JsonWebEncryption>::encode` for the text codec (lib.rs lines
321-327). -/
def DagJsonCodec.encodeJwe (v : JsonWebEncryption) : Json :=
  JsonWebEncryption.toJson v

/-- `Codec<JsonWebSignature>::decode` for the text codec (lib.rs lines
194-198): JSON → `Encoded` (serde) → `Decoded` (link derivation, panics
on an invalid payload identifier) → domain (spec-modelled conversion). -/
def DagJsonCodec.decodeJws (j : Json) : Outcome JsonWebSignature :=
  match Encoded.fromJson j with
  | none => .err .jsonDecode
  | some e =>
    match Decoded.fromEncoded e with
    | none => .panic
    | some d =>
      match JsonWebSignature.tryFromDecoded d with
      | .ok v => .ok v
      | .error er => .err er

/-- `Codec<JsonWebEncryption>::decode` for the text codec (lib.rs lines
316-320). -/
def DagJsonCodec.decodeJwe (j : Json) : Outcome JsonWebEncryption :=
  match Encoded.fromJson j with
  | none => .err .jsonDecode
  | some e =>
    match Decoded.fromEncoded e with
    | none => .panic
    | some d =>
      match JsonWebEncryption.tryFromDecoded d with
      | .ok v => .ok v
      | .error er => .err er

theorem lookupKeyJ_append (m1 m2 : List (Str × Json)) (k : Str) :
    lookupKeyJ (m1 ++ m2) k =
      match lookupKeyJ m1 k with
      | some v => some v
      | none => lookupKeyJ m2 k := by
  induction m1 with
  | nil => simp [lookupKeyJ]
  | cons kv t ihm =>
    rcases kv with ⟨k2, v⟩
    by_cases h : k2 = k <;> simp [lookupKeyJ, h, ihm]

theorem lookupKeyJ_optField (k2 k : Str) (ov : Option Json) :
    lookupKeyJ (optFieldJ k2 ov) k = if k2 = k then ov else none := by
  cases ov <;> simp [optFieldJ, lookupKeyJ]

/-- C7: the text codec cannot decode its own encoding.  The decode paths
deserialize into the byte-oriented wire struct, whose byte fields reject
the base64url text the encode paths emit, so decoding the text encoding
of any domain value fails with the JSON decode error instead of
reconstructing the value. -/
theorem dagjson_decode_encode_fails :
    (∀ v : JsonWebSignature,
      DagJsonCodec.decodeJws (DagJsonCodec.encodeJws v) = .err .jsonDecode) ∧
    (∀ v : JsonWebEncryption,
      DagJsonCodec.decodeJwe (DagJsonCodec.encodeJwe v) = .err .jsonDecode) := by
  constructor
  · intro v
    have h1 : Encoded.fromJson (DagJsonCodec.encodeJws v) = none := by
      simp [DagJsonCodec.encodeJws, JsonWebSignature.toJson, Encoded.fromJson,
        Json.asObj, bind, Option.bind, getOptJ, lookupKeyJ, jsonAsBytes,
        kLink, kPayload]
    simp [DagJsonCodec.decodeJws, h1]
  · intro v
    have h1 : Encoded.fromJson (DagJsonCodec.encodeJwe v) = none := by
      simp [DagJsonCodec.encodeJwe, JsonWebEncryption.toJson, Encoded.fromJson,
        Json.asObj, bind, Option.bind, getOptJ, jsonAsBytes,
        lookupKeyJ_append, lookupKeyJ_optField, lookupKeyJ,
        kAad, kCiphertext, kIv, kProtected, kRecipients, kTag, kUnprotected,
        kPayload, kSignatures]
    simp [DagJsonCodec.decodeJwe, h1]
